import Mathlib

/-!
Verification development for the codemap multi-language symbol extraction
engine (Go sources under scanner/ and the CLI front-end).

Strings are modelled as lists of characters (`Str`); the Go `strings`
package functions used by the scanner are given executable models below,
each named after its Go counterpart where the checker's lexical rules
allow.  Machine integers carry no overflow concerns here (line numbers and
counters), so they are modelled as `Int` / `Nat`.
-/

namespace Codemap

/-- Characters of a Go string, in order.  All scanner inputs of interest are
ASCII, where Go's byte indexing and this rune-list model coincide. -/
abbrev Str := List Char

/-- Left brace character (written via its code point). -/
def lbrace : Char := Char.ofNat 123

/-- Right brace character. -/
def rbrace : Char := Char.ofNat 125

/-- Single-quote character. -/
def squoteChar : Char := Char.ofNat 39

/-- Backtick character. -/
def btickChar : Char := Char.ofNat 96

/-- Boolean prefix test: `isPre p s` is true when `p` is a prefix of `s`. -/
def isPre : Str → Str → Bool
  | [], _ => true
  | _ :: _, [] => false
  | c :: p, d :: s => c == d && isPre p s

/-- Model of Go `strings.HasPrefix s pre`. -/
def hasPre (s pre : Str) : Bool := isPre pre s

/-- Model of Go `strings.HasSuffix s suf`. -/
def hasSuf (s suf : Str) : Bool := isPre suf.reverse s.reverse

/-- Model of Go `strings.Index s sub`: index of the first occurrence of
`sub` in `s`, or `none` where Go returns `-1`. -/
def indexOf : Str → Str → Option Nat
  | [], sub => if sub = [] then some 0 else none
  | c :: rest, sub =>
    if isPre sub (c :: rest) then some 0 else (indexOf rest sub).map (· + 1)

/-- Model of Go `strings.LastIndex s sub`. -/
def lastIndexOf : Str → Str → Option Nat
  | [], sub => if sub = [] then some 0 else none
  | c :: rest, sub =>
    match lastIndexOf rest sub with
    | some i => some (i + 1)
    | none => if isPre sub (c :: rest) then some 0 else none

/-- Model of Go `strings.Contains s sub`. -/
def containsSub (s sub : Str) : Bool := (indexOf s sub).isSome

/-- First index of a character satisfying `p` (helper for Go's
`for i, c := range s` early-exit loops). -/
def gFindIdx (p : Char → Bool) : Str → Option Nat
  | [] => none
  | c :: rest => if p c then some 0 else (gFindIdx p rest).map (· + 1)

/-- Model of Go `strings.IndexAny s cutset`. -/
def indexAny (s cutset : Str) : Option Nat :=
  gFindIdx (fun c => cutset.contains c) s

/-- Whitespace in the sense of Go `unicode.IsSpace`, restricted to ASCII
(space, tab, newline, vertical tab, form feed, carriage return). -/
def isSpaceChar (c : Char) : Bool :=
  c == ' ' || c == '\t' || c == '\n' || c == Char.ofNat 11 ||
    c == Char.ofNat 12 || c == '\r'

/-- Drop leading whitespace. -/
def trimLeftSpace (s : Str) : Str := s.dropWhile isSpaceChar

/-- Drop trailing whitespace. -/
def trimRightSpace (s : Str) : Str := (s.reverse.dropWhile isSpaceChar).reverse

/-- Model of Go `strings.TrimSpace`. -/
def trimSpace (s : Str) : Str := trimRightSpace (trimLeftSpace s)

/-- Model of Go `strings.TrimPrefix s pre`. -/
def dropPre (s pre : Str) : Str :=
  if isPre pre s then s.drop pre.length else s

/-- Model of Go `strings.TrimSuffix s suf`. -/
def dropSuf (s suf : Str) : Str :=
  if isPre suf.reverse s.reverse then s.take (s.length - suf.length) else s

/-- Model of Go `strings.TrimLeft s cutset`. -/
def trimLeftAny (s cutset : Str) : Str :=
  s.dropWhile (fun c => cutset.contains c)

/-- Model of Go `strings.Trim s cutset` (both ends). -/
def trimAny (s cutset : Str) : Str :=
  ((s.dropWhile (fun c => cutset.contains c)).reverse.dropWhile
    (fun c => cutset.contains c)).reverse

/-- Accumulator form of `fields` (current word is kept reversed). -/
def fieldsAux : Str → Str → List Str
  | cur, [] => if cur = [] then [] else [cur.reverse]
  | cur, c :: rest =>
    if isSpaceChar c then
      if cur = [] then fieldsAux [] rest else cur.reverse :: fieldsAux [] rest
    else fieldsAux (c :: cur) rest

/-- Model of Go `strings.Fields`: maximal runs of non-whitespace. -/
def fields (s : Str) : List Str := fieldsAux [] s

/-- Accumulator form of `splitOnChar`. -/
def splitCharAux (sep : Char) : Str → Str → List Str
  | cur, [] => [cur.reverse]
  | cur, c :: rest =>
    if c == sep then cur.reverse :: splitCharAux sep [] rest
    else splitCharAux sep (c :: cur) rest

/-- Model of Go `strings.Split s sep` for a one-character separator (the
scanner only splits on `"\n"` and `"-"`). -/
def splitOnChar (s : Str) (sep : Char) : List Str := splitCharAux sep [] s

/-- Fuel-bounded strip loop.  Go's scanner repeats a stripping pass while it
makes progress; every productive pass removes at least one character, so
`text.length` passes always suffice and the fuel never runs out early. -/
def stripLoopFuel (pass : Str → Str) : Nat → Str → Str
  | 0, text => text
  | n + 1, text =>
    let t := pass text
    if t.length < text.length then stripLoopFuel pass n t else text

/-- Repeat `pass` while it strictly shrinks the text (Go's
`for { found := ...; if !found { break } }` pattern). -/
def stripLoop (pass : Str → Str) (text : Str) : Str :=
  stripLoopFuel pass text.length text

/-- First-character test of `isValidIdentifier` (astgrep.go:1875-1880):
letters, underscore, and `#` (JS/TS private members) — the test does not
depend on the language. -/
def validFirstChar (c : Char) : Bool :=
  ('a' ≤ c && c ≤ 'z') || ('A' ≤ c && c ≤ 'Z') || c == '_' || c == '#'

/-- Non-first-character test of `isValidIdentifier` (astgrep.go:1881-1885). -/
def validRestChar (c : Char) : Bool :=
  ('a' ≤ c && c ≤ 'z') || ('A' ≤ c && c ≤ 'Z') ||
    ('0' ≤ c && c ≤ '9') || c == '_'

/-- Indexed character loop of `isValidIdentifier` (`for i, c := range s`). -/
def validChars : Nat → Str → Bool
  | _, [] => true
  | i, c :: rest =>
    (if i == 0 then validFirstChar c else validRestChar c) && validChars (i + 1) rest

/-- Model of `isValidIdentifier` (astgrep.go:1871-1888). -/
def isValidIdentifier (s : Str) : Bool :=
  if s = [] then false else validChars 0 s

/-- Model of `detectLangFromRuleID` (astgrep.go:736-767): the rule-id text
before the first `-` selects the language tag. -/
def detectLangFromRuleID (ruleID : Str) : Str :=
  match splitOnChar ruleID '-' with
  | [] => []
  | p :: _ =>
    if p = "go".toList then "go".toList
    else if p = "ts".toList then "typescript".toList
    else if p = "js".toList then "javascript".toList
    else if p = "py".toList then "python".toList
    else if p = "rust".toList then "rust".toList
    else if p = "java".toList then "java".toList
    else if p = "ruby".toList then "ruby".toList
    else if p = "swift".toList then "swift".toList
    else if p = "kotlin".toList then "kotlin".toList
    else if p = "c".toList then "c".toList
    else if p = "cpp".toList then "cpp".toList
    else if p = "bash".toList then "bash".toList
    else []

/-- The `#include` stage of `extractImportPath` (astgrep.go:774-781):
`some` is an early return, `none` falls through to the next stage. -/
def importPathInclude (text : Str) : Option Str :=
  if hasPre text ("#include".toList) then
    match indexOf text ("<".toList) with
    | some start =>
      match indexOf (text.drop start) (">".toList) with
      | some e => if 0 < e then some ((text.drop (start + 1)).take (e - 1)) else none
      | none => none
    | none => none
  else none

/-- The bash `source` stage of `extractImportPath` (astgrep.go:784-789). -/
def importPathSource (text : Str) : Option Str :=
  if hasPre text ("source ".toList) || hasPre text (". ".toList) then
    match fields text with
    | _ :: p :: _ => some p
    | _ => none
  else none

/-- One quote-character pass of the quoted-string stage (astgrep.go:792-799). -/
def importPathQuote (text : Str) (q : Char) : Option Str :=
  match indexOf text [q] with
  | some idx =>
    match indexOf (text.drop (idx + 1)) [q] with
    | some e => if 0 < e then some ((text.drop (idx + 1)).take e) else none
    | none => none
  | none => none

/-- The quoted-string stage of `extractImportPath`, trying `"`, `'`, and
backtick in that order. -/
def importPathQuoted (text : Str) : Option Str :=
  (importPathQuote text '"') <|> (importPathQuote text squoteChar) <|>
    (importPathQuote text btickChar)

/-- The generic `import ` stage of `extractImportPath` (astgrep.go:802-807,
commented "Python" in the source but tested on any language's text). -/
def importPathImport (text : Str) : Option Str :=
  if hasPre text ("import ".toList) then
    match fields text with
    | _ :: p :: _ => some p
    | _ => none
  else none

/-- The `from ` stage of `extractImportPath` (astgrep.go:810-815). -/
def importPathFrom (text : Str) : Option Str :=
  if hasPre text ("from ".toList) then
    match fields text with
    | _ :: p :: _ => some p
    | _ => none
  else none

/-- The Rust `use ` stage of `extractImportPath` (astgrep.go:818-826). -/
def importPathUse (text : Str) : Option Str :=
  if hasPre text ("use ".toList) then
    let t := dropSuf (dropPre text ("use ".toList)) (";".toList)
    match indexOf t ("::".toList) with
    | some idx => if 0 < idx then some (t.take idx) else some (trimSpace t)
    | none => some (trimSpace t)
  else none

/-- The Java `import ` stage of `extractImportPath` (astgrep.go:829-838);
note the earlier generic `import ` stage already returns for every text
with this prefix. -/
def importPathJava (text : Str) : Option Str :=
  if hasPre text ("import ".toList) then
    let t := trimSpace (dropSuf (dropPre text ("import ".toList)) (";".toList))
    match lastIndexOf t (".".toList) with
    | some idx => if 0 < idx then some (t.take idx) else some t
    | none => some t
  else none

/-- Model of `extractImportPath` (astgrep.go:769-841): the stages run in
source order, the first that returns wins, and the default is the empty
string. -/
def extractImportPath (text₀ : Str) : Str :=
  let text := trimSpace text₀
  ((importPathInclude text) <|> (importPathSource text) <|>
    (importPathQuoted text) <|> (importPathImport text) <|>
    (importPathFrom text) <|> (importPathUse text) <|>
    (importPathJava text)).getD []

/-- Single modifier-stripping pass of the ECMAScript function-name branch
(astgrep.go:876-878): each prefix in the fixed list is stripped once, in
order. -/
def tsFnStripMods (name : Str) : Str :=
  let name := dropPre name ("public ".toList)
  let name := dropPre name ("private ".toList)
  let name := dropPre name ("protected ".toList)
  let name := dropPre name ("static ".toList)
  let name := dropPre name ("readonly ".toList)
  let name := dropPre name ("async ".toList)
  let name := dropPre name ("get ".toList)
  let name := dropPre name ("set ".toList)
  dropPre name ("override ".toList)

/-- Go branch of `extractFunctionName` (astgrep.go:847-861). -/
def extractFunctionNameGo (text : Str) : Str :=
  if hasPre text ("func ".toList) then
    let text := dropPre text ("func ".toList)
    let text :=
      if hasPre text ("(".toList) then
        match indexOf text (")".toList) with
        | some idx => if 0 < idx then trimSpace (text.drop (idx + 1)) else text
        | none => text
      else text
    match indexOf text ("(".toList) with
    | some idx => if 0 < idx then text.take idx else []
    | none => []
  else []

/-- ECMAScript branch of `extractFunctionName` (astgrep.go:863-886): the
`function ` clause may rewrite `text` before falling through to the
method-definition clause. -/
def extractFunctionNameTS (text₀ : Str) : Str :=
  let hasFn := containsSub text₀ ("function ".toList)
  let text :=
    if hasFn then text₀.drop (((indexOf text₀ ("function ".toList)).getD 0) + 9)
    else text₀
  let early : Option Str :=
    if hasFn then
      match indexOf text ("(".toList) with
      | some p => if 0 < p then some (trimSpace (text.take p)) else none
      | none => none
    else none
  match early with
  | some r => r
  | none =>
    match indexOf text ("(".toList) with
    | some p =>
      if 0 < p then
        let name := tsFnStripMods (trimSpace (text.take p))
        if name = "if".toList ∨ name = "for".toList ∨ name = "while".toList ∨
            name = "switch".toList ∨ name = "catch".toList ∨ name = [] then []
        else if isValidIdentifier name then name
        else []
      else []
    | none => []

/-- Swift/Kotlin keyword loop of `extractFunctionName` (astgrep.go:941-952):
`text` is threaded through failed iterations exactly as Go mutates it. -/
def swiftKotlinFnLoop : List Str → Str → Str
  | [], _ => []
  | pre :: rest, text =>
    match indexOf text pre with
    | some i =>
      let t := text.drop (i + pre.length)
      (match indexOf t ("(".toList) with
       | some p =>
         if 0 < p then
           let name := t.take p
           let name :=
             match indexOf name ("<".toList) with
             | some b => if 0 < b then name.take b else name
             | none => name
           trimSpace name
         else swiftKotlinFnLoop rest t
       | none => swiftKotlinFnLoop rest t)
    | none => swiftKotlinFnLoop rest text

/-- Model of `extractFunctionName` (astgrep.go:843-982). -/
def extractFunctionName (text₀ lang : Str) : Str :=
  let text := trimSpace text₀
  if lang = "go".toList then extractFunctionNameGo text
  else if lang = "typescript".toList ∨ lang = "javascript".toList then
    extractFunctionNameTS text
  else if lang = "python".toList then
    (if hasPre text ("def ".toList) then
      let t := dropPre text ("def ".toList)
      match indexOf t ("(".toList) with
      | some p => if 0 < p then t.take p else []
      | none => []
    else [])
  else if lang = "rust".toList then
    (match indexOf text ("fn ".toList) with
     | some idx =>
       let t := text.drop (idx + 3)
       (match indexOf t ("(".toList) with
        | some p =>
          if 0 < p then
            let name := t.take p
            match indexOf name ("<".toList) with
            | some b => if 0 < b then name.take b else name
            | none => name
          else []
        | none => [])
     | none => [])
  else if lang = "java".toList then
    (match indexOf text ("(".toList) with
     | some p =>
       if 0 < p then
         match (fields (trimSpace (text.take p))).getLast? with
         | some last => last
         | none => []
       else []
     | none => [])
  else if lang = "ruby".toList then
    (if hasPre text ("def ".toList) then
      let t := dropPre text ("def ".toList)
      match indexOf t ("(".toList) with
      | some p =>
        if 0 < p then t.take p
        else
          (match indexOf t (" ".toList) with
           | some sp =>
             if 0 < sp then t.take sp
             else
               (match indexOf t ("\n".toList) with
                | some nl => if 0 < nl then t.take nl else t
                | none => t)
           | none =>
             (match indexOf t ("\n".toList) with
              | some nl => if 0 < nl then t.take nl else t
              | none => t))
      | none =>
        (match indexOf t (" ".toList) with
         | some sp =>
           if 0 < sp then t.take sp
           else
             (match indexOf t ("\n".toList) with
              | some nl => if 0 < nl then t.take nl else t
              | none => t)
         | none =>
           (match indexOf t ("\n".toList) with
            | some nl => if 0 < nl then t.take nl else t
            | none => t))
    else [])
  else if lang = "swift".toList ∨ lang = "kotlin".toList then
    swiftKotlinFnLoop ["func ".toList, "fun ".toList] text
  else if lang = "c".toList ∨ lang = "cpp".toList then
    (match indexOf text ("(".toList) with
     | some p =>
       if 0 < p then
         let before := trimLeftAny (trimSpace (text.take p)) ("*".toList)
         match (fields before).getLast? with
         | some last =>
           let name := trimLeftAny last ("*".toList)
           if isValidIdentifier name then name else []
         | none => []
       else []
     | none => [])
  else if lang = "bash".toList then
    (let t := dropPre text ("function ".toList)
     match indexOf t ("(".toList) with
     | some p =>
       if 0 < p then
         let name := trimSpace (t.take p)
         if isValidIdentifier name then name else []
       else []
     | none => [])
  else []

/-- Decorator-stripping pass shared by `extractStructName`,
`extractMethodName` and `extractContainerName` (e.g. astgrep.go:998-1004):
while the text starts with `@` and a newline at a positive index exists,
drop through that newline and trim; otherwise leave the text unchanged
(the Go loop then breaks). -/
def stripDecoPass (text : Str) : Str :=
  if hasPre text ("@".toList) then
    match indexOf text ("\n".toList) with
    | some n => if 0 < n then trimSpace (text.drop (n + 1)) else text
    | none => text
  else text

/-- Delimiter test ` `, `<`, `{`, `\n` used by the class-like name loops. -/
def classNameDelim (c : Char) : Bool :=
  c == ' ' || c == '<' || c == lbrace || c == '\n'

/-- Model of `extractStructName` (astgrep.go:984-1021). -/
def extractStructName (text₀ lang : Str) : Str :=
  if lang = "go".toList then
    match indexOf text₀ ("type ".toList) with
    | some idx =>
      let t := text₀.drop (idx + 5)
      (match indexAny t (" \t".toList) with
       | some sp => if 0 < sp then trimSpace (t.take sp) else []
       | none => [])
    | none => []
  else if lang = "typescript".toList ∨ lang = "javascript".toList then
    let t := stripLoop stripDecoPass (trimSpace text₀)
    let t := dropPre t ("export ".toList)
    let t := dropPre t ("default ".toList)
    let t := dropPre t ("abstract ".toList)
    if hasPre t ("class ".toList) then
      let t := dropPre t ("class ".toList)
      match gFindIdx classNameDelim t with
      | some i => t.take i
      | none => t
    else []
  else []

/-- Model of `extractInterfaceName` (astgrep.go:1023-1049). -/
def extractInterfaceName (text₀ lang : Str) : Str :=
  if lang = "go".toList then
    match indexOf text₀ ("type ".toList) with
    | some idx =>
      let t := text₀.drop (idx + 5)
      (match indexAny t (" \t".toList) with
       | some sp => if 0 < sp then trimSpace (t.take sp) else []
       | none => [])
    | none => []
  else if lang = "typescript".toList then
    let t := dropPre (trimSpace text₀) ("export ".toList)
    if hasPre t ("interface ".toList) then
      let t := dropPre t ("interface ".toList)
      match gFindIdx classNameDelim t with
      | some i => t.take i
      | none => t
    else []
  else []

/-- Single modifier-stripping pass of the ECMAScript method branch
(astgrep.go:1080-1091); the outer `stripLoop` repeats it while it makes
progress, as the Go `for found` loop does. -/
def tsMethodModsPass (text : Str) : Str :=
  let text := dropPre text ("public ".toList)
  let text := dropPre text ("private ".toList)
  let text := dropPre text ("protected ".toList)
  let text := dropPre text ("static ".toList)
  let text := dropPre text ("readonly ".toList)
  let text := dropPre text ("async ".toList)
  let text := dropPre text ("override ".toList)
  dropPre text ("abstract ".toList)

/-- Quote characters stripped from computed method keys (`"`, `'`, backtick). -/
def quoteCutset : Str := ['"', squoteChar, btickChar]

/-- Model of `extractMethodName` (astgrep.go:1051-1121). -/
def extractMethodName (text₀ lang : Str) : Str :=
  if lang = "go".toList then
    (if hasPre text₀ ("func ".toList) then
      let t := dropPre text₀ ("func ".toList)
      let t :=
        if hasPre t ("(".toList) then
          match indexOf t (")".toList) with
          | some idx => if 0 < idx then trimSpace (t.drop (idx + 1)) else t
          | none => t
        else t
      match indexOf t ("(".toList) with
      | some p => if 0 < p then trimSpace (t.take p) else []
      | none => []
    else [])
  else if lang = "typescript".toList ∨ lang = "javascript".toList then
    let t := stripLoop stripDecoPass (trimSpace text₀)
    let t := stripLoop tsMethodModsPass t
    let t := dropPre t ("get ".toList)
    let t := dropPre t ("set ".toList)
    let t := dropPre t ("*".toList)
    let t := trimSpace t
    let computed : Option Str :=
      if hasPre t ("[".toList) then
        match indexOf t ("]".toList) with
        | some closeIdx =>
          if 0 < closeIdx then
            let inner := trimAny ((t.take closeIdx).drop 1) quoteCutset
            if inner ≠ [] then some (("[".toList) ++ inner ++ ("]".toList)) else none
          else none
        | none => none
      else none
    match computed with
    | some r => r
    | none =>
      match gFindIdx (fun c => c == '(' || c == '<') t with
      | some i =>
        let name := trimSpace (t.take i)
        if isValidIdentifier name then name else []
      | none => []
  else []

/-- Name extracted from one line of a Go `const (...)` / `var (...)` block
(astgrep.go:1136-1159 and 1504-1527): skip blank and `//` lines, cut at a
positive `=` index, and validate the first field. -/
def blockLineName (line₀ : Str) : Option Str :=
  let line := trimSpace line₀
  if line = [] ∨ hasPre line ("//".toList) then none
  else
    let part :=
      match indexOf line ("=".toList) with
      | some eq => if 0 < eq then trimSpace (line.take eq) else line
      | none => line
    match fields part with
    | [] => none
    | name :: _ => if isValidIdentifier name then some name else none

/-- Model of `extractConstantNames` (astgrep.go:1123-1198). -/
def extractConstantNames (text₀ lang : Str) : List Str :=
  if lang = "go".toList then
    let t := trimSpace (dropPre text₀ ("const ".toList))
    if hasPre t ("(".toList) then
      let t := dropSuf (dropPre t ("(".toList)) (")".toList)
      (splitOnChar t '\n').filterMap blockLineName
    else
      match indexOf t ("=".toList) with
      | some eq =>
        if 0 < eq then
          match fields (trimSpace (t.take eq)) with
          | [] => []
          | name :: _ => if isValidIdentifier name then [name] else []
        else []
      | none => []
  else if lang = "typescript".toList ∨ lang = "javascript".toList then
    let t := dropPre (trimSpace text₀) ("export ".toList)
    if hasPre t ("const ".toList) then
      let t := dropPre t ("const ".toList)
      if hasPre t ("[".toList) ∨ hasPre t (List.cons lbrace []) then []
      else
        match gFindIdx (fun c => c == ' ' || c == ':' || c == '=') t with
        | some i =>
          let name := trimSpace (t.take i)
          if isValidIdentifier name then [name] else []
        | none => []
    else []
  else []

/-- Model of `extractVarNames` (astgrep.go:1491-1578). -/
def extractVarNames (text₀ lang : Str) : List Str :=
  if lang = "go".toList then
    let t := trimSpace (dropPre text₀ ("var ".toList))
    if hasPre t ("(".toList) then
      let t := dropSuf (dropPre t ("(".toList)) (")".toList)
      (splitOnChar t '\n').filterMap blockLineName
    else
      let part :=
        match indexOf t ("=".toList) with
        | some eq => if 0 < eq then trimSpace (t.take eq) else t
        | none => t
      match fields part with
      | [] => []
      | name :: _ => if isValidIdentifier name then [name] else []
  else if lang = "typescript".toList ∨ lang = "javascript".toList then
    let t := dropPre (trimSpace text₀) ("export ".toList)
    let body : Str → List Str := fun t =>
      if hasPre t ("[".toList) ∨ hasPre t (List.cons lbrace []) then []
      else
        match gFindIdx (fun c => c == ' ' || c == ':' || c == '=') t with
        | some i =>
          let name := trimSpace (t.take i)
          if isValidIdentifier name then [name] else []
        | none => []
    if hasPre t ("let ".toList) then body (dropPre t ("let ".toList))
    else if hasPre t ("var ".toList) then body (dropPre t ("var ".toList))
    else []
  else []

/-- Model of `extractTypeName` (astgrep.go:1200-1221). -/
def extractTypeName (text₀ lang : Str) : Str :=
  if lang = "go".toList then extractStructName text₀ lang
  else if lang = "typescript".toList then
    let t := dropPre (trimSpace text₀) ("export ".toList)
    if hasPre t ("type ".toList) then
      let t := dropPre t ("type ".toList)
      match gFindIdx (fun c => c == ' ' || c == '<' || c == '=') t with
      | some i => trimSpace (t.take i)
      | none => t
    else []
  else []

/-- Model of `extractEnumName` (astgrep.go:1223-1242). -/
def extractEnumName (text₀ lang : Str) : Str :=
  if lang = "typescript".toList then
    let t := trimSpace text₀
    let t := dropPre t ("export ".toList)
    let t := dropPre t ("const ".toList)
    let t := dropPre t ("declare ".toList)
    if hasPre t ("enum ".toList) then
      let t := dropPre t ("enum ".toList)
      match gFindIdx (fun c => c == ' ' || c == lbrace || c == '\n') t with
      | some i => t.take i
      | none => t
    else []
  else []

/-- Model of `extractArrowFunctionName` (astgrep.go:1244-1270); it reads the
match's full line buffer, not the match text. -/
def extractArrowFunctionName (lines lang : Str) : Str :=
  if lang = "typescript".toList ∨ lang = "javascript".toList then
    let line := dropPre (trimSpace lines) ("export ".toList)
    let body : Str → Str := fun t =>
      match gFindIdx (fun c => c == ' ' || c == ':' || c == '=') t with
      | some i =>
        let name := trimSpace (t.take i)
        if isValidIdentifier name then name else []
      | none => []
    if hasPre line ("const ".toList) then body (dropPre line ("const ".toList))
    else if hasPre line ("let ".toList) then body (dropPre line ("let ".toList))
    else if hasPre line ("var ".toList) then body (dropPre line ("var ".toList))
    else []
  else []

/-- Model of `extractNamespaceName` (astgrep.go:1272-1296). -/
def extractNamespaceName (text₀ lang : Str) : Str :=
  if lang = "typescript".toList then
    let t := trimSpace text₀
    let t := dropPre t ("export ".toList)
    let t := dropPre t ("declare ".toList)
    let body : Str → Str := fun t =>
      if hasPre t ("\"".toList) ∨ hasPre t [squoteChar] then []
      else
        match gFindIdx (fun c => c == ' ' || c == lbrace || c == '\n') t with
        | some i => t.take i
        | none => t
    if hasPre t ("namespace ".toList) then body (dropPre t ("namespace ".toList))
    else if hasPre t ("module ".toList) then body (dropPre t ("module ".toList))
    else []
  else []

/-- Model of `extractFunctionSignatureName` (astgrep.go:1298-1317). -/
def extractFunctionSignatureName (text₀ lang : Str) : Str :=
  if lang = "typescript".toList then
    let t := trimSpace text₀
    if hasPre t ("function ".toList) then
      let t := dropPre t ("function ".toList)
      match gFindIdx (fun c => c == '(' || c == '<') t with
      | some i =>
        let name := trimSpace (t.take i)
        if isValidIdentifier name then name else []
      | none => []
    else []
  else []

/-- Model of `extractMethodSignatureName` (astgrep.go:1319-1336). -/
def extractMethodSignatureName (text₀ lang : Str) : Str :=
  if lang = "typescript".toList then
    let t := dropPre (trimSpace text₀) ("abstract ".toList)
    match gFindIdx (fun c => c == '(' || c == '<' || c == '?') t with
    | some i =>
      let name := trimSpace (t.take i)
      if isValidIdentifier name then name else []
    | none => []
  else []

/-- Model of `extractPropertySignatureName` (astgrep.go:1338-1355). -/
def extractPropertySignatureName (text₀ lang : Str) : Str :=
  if lang = "typescript".toList then
    let t := dropPre (trimSpace text₀) ("readonly ".toList)
    match gFindIdx (fun c => c == ':' || c == '?' || c == ' ' || c == '\t') t with
    | some i =>
      let name := trimSpace (t.take i)
      if isValidIdentifier name then name else []
    | none => []
  else []

/-- Fuel-bounded decorator loop of `extractFieldDefinitionName`
(astgrep.go:1361-1375): `none` models the Go `return ""`; each productive
pass drops at least two characters, so `text.length` fuel never runs out
before the loop's own exit. -/
def stripFieldDecosFuel : Nat → Str → Option Str
  | 0, text => some text
  | n + 1, text =>
    if hasPre text ("@".toList) then
      let next : Option Str :=
        match indexOf text (")".toList) with
        | some paren =>
          if 0 < paren then some (trimSpace (text.drop (paren + 1))) else none
        | none => none
      let next : Option Str :=
        match next with
        | some t => some t
        | none =>
          match indexOf text ("\n".toList) with
          | some nl => if 0 < nl then some (trimSpace (text.drop (nl + 1))) else none
          | none => none
      let next : Option Str :=
        match next with
        | some t => some t
        | none =>
          match indexOf text (" ".toList) with
          | some sp => if 0 < sp then some (trimSpace (text.drop (sp + 1))) else none
          | none => none
      match next with
      | some t => stripFieldDecosFuel n t
      | none => none
    else some text

/-- Single modifier pass of `extractFieldDefinitionName` (astgrep.go:1377-1388). -/
def tsFieldModsPass (text : Str) : Str :=
  let text := dropPre text ("public ".toList)
  let text := dropPre text ("private ".toList)
  let text := dropPre text ("protected ".toList)
  let text := dropPre text ("static ".toList)
  let text := dropPre text ("readonly ".toList)
  let text := dropPre text ("abstract ".toList)
  let text := dropPre text ("override ".toList)
  dropPre text ("declare ".toList)

/-- Model of `extractFieldDefinitionName` (astgrep.go:1357-1401). -/
def extractFieldDefinitionName (text₀ lang : Str) : Str :=
  if lang = "typescript".toList ∨ lang = "javascript".toList then
    let t := trimSpace text₀
    match stripFieldDecosFuel t.length t with
    | none => []
    | some t =>
      let t := stripLoop tsFieldModsPass t
      match gFindIdx
          (fun c => c == ':' || c == '=' || c == '!' || c == ' ' || c == '\t' || c == ';') t with
      | some i =>
        let name := trimSpace (t.take i)
        if isValidIdentifier name then name else []
      | none => []
  else []

/-- Model of `extractDecoratorName` (astgrep.go:1403-1426). -/
def extractDecoratorName (text₀ lang : Str) : Str :=
  if lang = "typescript".toList then
    let t := trimSpace text₀
    if hasPre t ("@".toList) then
      let t := dropPre t ("@".toList)
      match gFindIdx (fun c => c == '(' || c == '\n' || c == ' ' || c == '\t') t with
      | some i =>
        let name := trimSpace (t.take i)
        if isValidIdentifier name then name
        else if isValidIdentifier t then t else []
      | none => if isValidIdentifier t then t else []
    else []
  else []

/-- Model of `extractGeneratorFunctionName` (astgrep.go:1428-1453). -/
def extractGeneratorFunctionName (text₀ lang : Str) : Str :=
  if lang = "typescript".toList ∨ lang = "javascript".toList then
    let t := trimSpace text₀
    let t := dropPre t ("export ".toList)
    let t := dropPre t ("async ".toList)
    if hasPre t ("function* ".toList) ∨ hasPre t ("function *".toList) then
      match indexOf t ("*".toList) with
      | some idx =>
        let t := trimSpace (t.drop (idx + 1))
        (match gFindIdx (fun c => c == '(' || c == '<') t with
         | some i =>
           let name := trimSpace (t.take i)
           if isValidIdentifier name then name else []
         | none => [])
      | none => []
    else []
  else []

/-- One quote pass of the `require(` clause of `extractImportAliasName`
(astgrep.go:1465-1472). -/
def importAliasQuote (text : Str) (start : Nat) (q : Char) : Option Str :=
  match indexOf (text.drop start) [q] with
  | some qs =>
    match indexOf (text.drop (start + qs + 1)) [q] with
    | some qe => some ((text.drop (start + qs + 1)).take qe)
    | none => none
  | none => none

/-- Model of `extractImportAliasName` (astgrep.go:1455-1489). -/
def extractImportAliasName (text₀ lang : Str) : Str :=
  if lang = "typescript".toList then
    let text := trimSpace text₀
    let viaRequire : Option Str :=
      if containsSub text ("require(".toList) then
        let start := ((indexOf text ("require(".toList)).getD 0) + 8
        (importAliasQuote text start squoteChar) <|>
          (importAliasQuote text start '"') <|> (importAliasQuote text start btickChar)
      else none
    match viaRequire with
    | some r => r
    | none =>
      let t := dropPre text ("import ".toList)
      match indexOf t ("=".toList) with
      | some eq =>
        if 0 < eq then
          let rhs := dropSuf (trimSpace (t.drop (eq + 1))) (";".toList)
          match indexOf rhs (".".toList) with
          | some dot => if 0 < dot then rhs.take dot else rhs
          | none => rhs
        else []
      | none => []
  else []

/-- Model of `extractCallSignature` (astgrep.go:1736-1742). -/
def extractCallSignature (text₀ : Str) : Str :=
  if hasPre (trimSpace text₀) ("(".toList) then "()".toList else []

/-- Model of `extractConstructSignature` (astgrep.go:1747-1753). -/
def extractConstructSignature (text₀ : Str) : Str :=
  let t := trimSpace text₀
  if hasPre t ("new(".toList) || hasPre t ("new (".toList) then "new()".toList else []

/-- Model of `extractIndexSignature` (astgrep.go:1758-1775). -/
def extractIndexSignature (text₀ : Str) : Str :=
  let t := trimSpace text₀
  if ¬ hasPre t ("[".toList) then []
  else
    match indexOf t (":".toList) with
    | none => []
    | some colonIdx =>
      match indexOf t ("]".toList) with
      | none => []
      | some closeBracket =>
        if closeBracket < colonIdx then []
        else
          let keyType := trimSpace ((t.take closeBracket).drop (colonIdx + 1))
          ("[".toList) ++ keyType ++ ("]".toList)

/-- Depth-aware comma split of `extractVarDeclarationNames`
(astgrep.go:1789-1810); the piece after the final comma is emitted only
when non-empty, as in the Go `start < len(text)` guard. -/
def stcAux (sep : Char) : Int → Str → Str → List Str
  | _, cur, [] => if cur = [] then [] else [cur.reverse]
  | depth, cur, c :: rest =>
    if c == '(' || c == lbrace || c == '[' then stcAux sep (depth + 1) (c :: cur) rest
    else if c == ')' || c == rbrace || c == ']' then stcAux sep (depth - 1) (c :: cur) rest
    else if c == sep && depth == 0 then cur.reverse :: stcAux sep 0 [] rest
    else stcAux sep depth (c :: cur) rest

/-- Model of `extractSingleVarName` (astgrep.go:1815-1836). -/
def extractSingleVarName (text₀ : Str) : Str :=
  let t := trimSpace text₀
  if hasPre t ("[".toList) ∨ hasPre t (List.cons lbrace []) then []
  else
    match gFindIdx (fun c => c == ' ' || c == ':' || c == '=' || c == ';') t with
    | some i =>
      let name := trimSpace (t.take i)
      if isValidIdentifier name then name else []
    | none =>
      let name := dropSuf (trimSpace t) (";".toList)
      if isValidIdentifier name then name else []

/-- Model of `extractVarDeclarationNames` (astgrep.go:1779-1812). -/
def extractVarDeclarationNames (text₀ _lang : Str) : List Str :=
  let t := trimSpace text₀
  if ¬ hasPre t ("var ".toList) then []
  else
    let t := dropPre t ("var ".toList)
    (stcAux ',' 0 [] t).filterMap (fun piece =>
      let name := extractSingleVarName piece
      if name ≠ [] then some name else none)

/-- Model of `extractFunctionExpressionName` (astgrep.go:1841-1869). -/
def extractFunctionExpressionName (text₀ _lang : Str) : Str :=
  let t := dropPre (trimSpace text₀) ("async ".toList)
  if ¬ hasPre t ("function".toList) then []
  else
    let t := dropPre t ("function".toList)
    let t := dropPre t ("*".toList)
    let t := trimSpace t
    if hasPre t ("(".toList) then []
    else
      match gFindIdx (fun c => c == '(' || c == '<') t with
      | some i =>
        let name := trimSpace (t.take i)
        if isValidIdentifier name then name else []
      | none => []

/-- Model of `extractCallExpressionName` (astgrep.go:646-666). -/
def extractCallExpressionName (text₀ : Str) : Str :=
  let t := trimSpace text₀
  match indexOf t ("(".toList) with
  | none => []
  | some parenIdx =>
    let name := trimSpace (t.take parenIdx)
    let name :=
      match lastIndexOf name (".".toList) with
      | some d => name.drop (d + 1)
      | none => name
    let name :=
      match lastIndexOf name ("?".toList) with
      | some q => name.drop (q + 1)
      | none => name
    if isValidIdentifier name then name else []

/-- Model of `extractNewExpressionName` (astgrep.go:669-686). -/
def extractNewExpressionName (text₀ : Str) : Str :=
  let t := trimSpace text₀
  if ¬ hasPre t ("new ".toList) then []
  else
    let t := dropPre t ("new ".toList)
    match gFindIdx (fun c => c == '(' || c == '<' || c == ' ') t with
    | some i =>
      let name := trimSpace (t.take i)
      if isValidIdentifier name then name else []
    | none => []

/-- Model of `extractTypeReferenceName` (astgrep.go:689-703). -/
def extractTypeReferenceName (text₀ : Str) : Str :=
  let t := trimSpace text₀
  let t :=
    match indexOf t ("<".toList) with
    | some b => if 0 < b then t.take b else t
    | none => t
  let t :=
    match lastIndexOf t (".".toList) with
    | some d => t.drop (d + 1)
    | none => t
  if isValidIdentifier t then t else []

/-- Receiver-token step of `extractGoReceiverType` (astgrep.go:722-733):
at least two whitespace-separated tokens are required; the last one is
stripped of an optional `*` and validated. -/
def goReceiverFromParts (parts : List Str) : Str :=
  if parts.length < 2 then []
  else
    if isValidIdentifier (dropPre (parts.getLastD []) ("*".toList)) then
      dropPre (parts.getLastD []) ("*".toList)
    else []

/-- Parenthetical step of `extractGoReceiverType` (astgrep.go:713-723),
applied after the `func ` keyword is stripped. -/
def goReceiverFromFunc (text : Str) : Str :=
  if ¬ hasPre text ("(".toList) then []
  else
    match indexOf text (")".toList) with
    | none => []
    | some closeIdx => goReceiverFromParts (fields ((text.take closeIdx).drop 1))

/-- Model of `extractGoReceiverType` (astgrep.go:707-734). -/
def extractGoReceiverType (text₀ : Str) : Str :=
  if ¬ hasPre (trimSpace text₀) ("func ".toList) then []
  else goReceiverFromFunc (dropPre (trimSpace text₀) ("func ".toList))

/-- First line of the match text as clipped by `extractModifiers`
(astgrep.go:626-633): cut at a positive newline index, then at a positive
opening-brace index. -/
def modifierFirstLine (text : Str) : Str :=
  let fl :=
    match indexOf text ("\n".toList) with
    | some ni => if 0 < ni then text.take ni else text
    | none => text
  match indexOf fl [lbrace] with
  | some bi => if 0 < bi then fl.take bi else fl
  | none => fl

/-- The fixed modifier set of `extractModifiers` (astgrep.go:635), in its
source enumeration order. -/
def tsModifierSet : List Str :=
  ["public".toList, "private".toList, "protected".toList, "static".toList,
   "readonly".toList, "async".toList, "abstract".toList, "override".toList,
   "export".toList, "default".toList]

/-- Selection loop of `extractModifiers` (astgrep.go:636-641): each modifier
of the fixed list is kept when followed by a space it occurs in the first
line. -/
def modsSelect (firstLine : Str) : List Str → List Str
  | [] => []
  | m :: rest =>
    if containsSub firstLine (m ++ (" ".toList)) ||
        hasPre firstLine (m ++ (" ".toList)) then
      m :: modsSelect firstLine rest
    else modsSelect firstLine rest

/-- Model of `extractModifiers` (astgrep.go:619-643). -/
def extractModifiers (text lang : Str) : List Str :=
  if ¬ (lang = "typescript".toList ∨ lang = "javascript".toList) then []
  else modsSelect (modifierFirstLine text) tsModifierSet

/-- Name candidate scan of `extractScopeFromContext` (astgrep.go:585-593):
stop at the first delimiter; a valid trimmed candidate is returned, anything
else falls through (the Go `break`). -/
def scopeCandidate (rest : Str) : Option Str :=
  match gFindIdx classNameDelim rest with
  | some i =>
    let n := trimSpace (rest.take i)
    if isValidIdentifier n then some n else none
  | none => none

/-- Class clause of `extractScopeFromContext` (astgrep.go:580-595): when
`class ` occurs in the line buffer, scan the text after its first
occurrence for a valid name; `none` falls through to the interface clause. -/
def classContextScope (lines : Str) : Option Str :=
  if containsSub lines ("class ".toList) then
    match indexOf lines ("class ".toList) with
    | some idx =>
      (scopeCandidate (lines.drop (idx + 6))).map (fun n => ("class:".toList) ++ n)
    | none => none
  else none

/-- Interface clause of `extractScopeFromContext` (astgrep.go:598-612). -/
def interfaceContextScope (lines : Str) : Option Str :=
  if containsSub lines ("interface ".toList) then
    match indexOf lines ("interface ".toList) with
    | some idx =>
      (scopeCandidate (lines.drop (idx + 10))).map (fun n => ("interface:".toList) ++ n)
    | none => none
  else none

/-- Model of `extractScopeFromContext` (astgrep.go:574-615). -/
def extractScopeFromContext (lines lang : Str) : Str :=
  if ¬ (lang = "typescript".toList ∨ lang = "javascript".toList) then
    "global".toList
  else
    match classContextScope lines with
    | some s => s
    | none =>
      match interfaceContextScope lines with
      | some s => s
      | none => "global".toList

/-- Symbol kinds (types.go companion file of the V2 scanner; the
constructor names follow the constants used throughout the sources and
tests: `KindImport`, `KindFunction`, ...). -/
inductive SymbolKind
  | KindImport | KindFunction | KindMethod | KindClass | KindInterface
  | KindType | KindEnum | KindNamespace | KindConstant | KindVariable
  | KindField | KindProperty | KindDecorator
deriving DecidableEq

/-- Symbol roles (`RoleDefinition` / `RoleReference`). -/
inductive SymbolRole
  | RoleDefinition | RoleReference
deriving DecidableEq

/-- The V2 symbol record: name, kind, role, 0-indexed position, scope
string and modifier list (spec §3, matching the fields read by
`extractSymbolV2` and the renderers). -/
structure Symbol where
  name : Str
  kind : SymbolKind
  role : SymbolRole
  line : Int
  column : Int
  scope : Str
  modifiers : List Str := []
deriving DecidableEq

/-- A raw ast-grep match (the fields of `ScanMatch`, astgrep.go:18-34);
`metaSingle` is the `metaVariables.single` name-to-text map as an
association list. -/
structure ScanMatch where
  file : Str
  ruleId : Str
  line : Int
  column : Int
  text : Str
  lines : Str
  metaSingle : List (Str × Str) := []
deriving DecidableEq

/-- First binding of a key in an association list (Go map read). -/
def assocGet : List (Str × Str) → Str → Option Str
  | [], _ => none
  | (k, v) :: rest, key => if k = key then some v else assocGet rest key

/-- The `PATH` meta-variable of a match, when present. -/
def metaPath (m : ScanMatch) : Option Str := assocGet m.metaSingle ("PATH".toList)

/-- A scope container (spec §3 `ScopeContainer`: kind, name, 0-indexed
start and end line; the type itself lives in the V2 types file). -/
structure ScopeContainer where
  kind : Str
  name : Str
  startLine : Int
  endLine : Int
deriving DecidableEq

/-- One analyzed file of the V2 scan (`FileAnalysisV2`). -/
structure FileAnalysisV2 where
  path : Str
  language : Str
  symbols : List Symbol
deriving DecidableEq

/-- Model of `determineRole` (astgrep.go:526-531). -/
def determineRole (ruleID : Str) : SymbolRole :=
  if containsSub ruleID ("-ref-".toList) then SymbolRole.RoleReference
  else SymbolRole.RoleDefinition

/-- Model of `determineKind` (astgrep.go:534-571): ordered suffix table with
`KindVariable` as the default. -/
def determineKind (ruleID : Str) : SymbolKind :=
  if hasSuf ruleID ("-imports".toList) || hasSuf ruleID ("-import-aliases".toList) then
    SymbolKind.KindImport
  else if hasSuf ruleID ("-functions".toList) || hasSuf ruleID ("-arrow-functions".toList) ||
      hasSuf ruleID ("-function-signatures".toList) || hasSuf ruleID ("-generator-functions".toList) ||
      hasSuf ruleID ("-function-expressions".toList) || hasSuf ruleID ("-ref-function-calls".toList) then
    SymbolKind.KindFunction
  else if hasSuf ruleID ("-methods".toList) || hasSuf ruleID ("-method-signatures".toList) ||
      hasSuf ruleID ("-call-signatures".toList) || hasSuf ruleID ("-construct-signatures".toList) ||
      hasSuf ruleID ("-static-blocks".toList) then
    SymbolKind.KindMethod
  else if hasSuf ruleID ("-structs".toList) || hasSuf ruleID ("-classes".toList) ||
      hasSuf ruleID ("-ref-new-expressions".toList) then
    SymbolKind.KindClass
  else if hasSuf ruleID ("-interfaces".toList) then SymbolKind.KindInterface
  else if hasSuf ruleID ("-types".toList) || hasSuf ruleID ("-ref-type-references".toList) then
    SymbolKind.KindType
  else if hasSuf ruleID ("-enums".toList) then SymbolKind.KindEnum
  else if hasSuf ruleID ("-namespaces".toList) then SymbolKind.KindNamespace
  else if hasSuf ruleID ("-constants".toList) then SymbolKind.KindConstant
  else if hasSuf ruleID ("-vars".toList) || hasSuf ruleID ("-variable-declarations".toList) then
    SymbolKind.KindVariable
  else if hasSuf ruleID ("-lexical".toList) then SymbolKind.KindVariable
  else if hasSuf ruleID ("-field-definitions".toList) then SymbolKind.KindField
  else if hasSuf ruleID ("-property-signatures".toList) || hasSuf ruleID ("-index-signatures".toList) then
    SymbolKind.KindProperty
  else if hasSuf ruleID ("-decorators".toList) then SymbolKind.KindDecorator
  else SymbolKind.KindVariable

/-- The base symbol record of `extractSymbolV2` (astgrep.go:420-426):
role, kind and position from the match, empty name, default scope
`global`. -/
def extractSymbolV2Base (m : ScanMatch) : Symbol :=
  { name := [], kind := determineKind m.ruleId, role := determineRole m.ruleId,
    line := m.line, column := m.column, scope := "global".toList, modifiers := [] }

/-- Rule-family dispatch of `extractSymbolV2` (astgrep.go:428-517): the
name (and, for the four member families, the scope; for `-lexical`, the
kind) is filled into the base record.  The suffix tests run in source
order — note `-arrow-functions` is tested before `-functions`. -/
def extractSymbolV2Core (m : ScanMatch) (lang : Str) : Symbol :=
  if hasSuf m.ruleId ("-imports".toList) then
      { (extractSymbolV2Base m) with name :=
          (match metaPath m with
           | some t => if t ≠ [] then t else extractImportPath m.text
           | none => extractImportPath m.text) }
    else if hasSuf m.ruleId ("-arrow-functions".toList) then
      { (extractSymbolV2Base m) with name := extractArrowFunctionName m.lines lang }
    else if hasSuf m.ruleId ("-function-signatures".toList) then
      { (extractSymbolV2Base m) with name := extractFunctionSignatureName m.text lang }
    else if hasSuf m.ruleId ("-generator-functions".toList) then
      { (extractSymbolV2Base m) with name := extractGeneratorFunctionName m.text lang }
    else if hasSuf m.ruleId ("-functions".toList) then
      { (extractSymbolV2Base m) with name := extractFunctionName m.text lang }
    else if hasSuf m.ruleId ("-structs".toList) || hasSuf m.ruleId ("-classes".toList) then
      { (extractSymbolV2Base m) with name := extractStructName m.text lang }
    else if hasSuf m.ruleId ("-interfaces".toList) then
      { (extractSymbolV2Base m) with name := extractInterfaceName m.text lang }
    else if hasSuf m.ruleId ("-methods".toList) then
      { (extractSymbolV2Base m) with
          name := extractMethodName m.text lang,
          scope := extractScopeFromContext m.lines lang }
    else if hasSuf m.ruleId ("-method-signatures".toList) then
      { (extractSymbolV2Base m) with
          name := extractMethodSignatureName m.text lang,
          scope := extractScopeFromContext m.lines lang }
    else if hasSuf m.ruleId ("-constants".toList) then
      { (extractSymbolV2Base m) with name := (extractConstantNames m.text lang).headD [] }
    else if hasSuf m.ruleId ("-types".toList) then
      { (extractSymbolV2Base m) with name := extractTypeName m.text lang }
    else if hasSuf m.ruleId ("-vars".toList) then
      { (extractSymbolV2Base m) with name := (extractVarNames m.text lang).headD [] }
    else if hasSuf m.ruleId ("-enums".toList) then
      { (extractSymbolV2Base m) with name := extractEnumName m.text lang }
    else if hasSuf m.ruleId ("-lexical".toList) then
      (if hasPre (trimSpace m.text) ("const ".toList) then
        match extractConstantNames m.text lang with
        | [] => extractSymbolV2Base m
        | n :: _ => { (extractSymbolV2Base m) with name := n, kind := SymbolKind.KindConstant }
      else
        match extractVarNames m.text lang with
        | [] => extractSymbolV2Base m
        | n :: _ => { (extractSymbolV2Base m) with name := n, kind := SymbolKind.KindVariable })
    else if hasSuf m.ruleId ("-namespaces".toList) then
      { (extractSymbolV2Base m) with name := extractNamespaceName m.text lang }
    else if hasSuf m.ruleId ("-property-signatures".toList) then
      { (extractSymbolV2Base m) with
          name := extractPropertySignatureName m.text lang,
          scope := extractScopeFromContext m.lines lang }
    else if hasSuf m.ruleId ("-field-definitions".toList) then
      { (extractSymbolV2Base m) with
          name := extractFieldDefinitionName m.text lang,
          scope := extractScopeFromContext m.lines lang }
    else if hasSuf m.ruleId ("-decorators".toList) then
      { (extractSymbolV2Base m) with name := extractDecoratorName m.text lang }
    else if hasSuf m.ruleId ("-import-aliases".toList) then
      { (extractSymbolV2Base m) with name := extractImportAliasName m.text lang }
    else if hasSuf m.ruleId ("-call-signatures".toList) then
      { (extractSymbolV2Base m) with name := extractCallSignature m.text }
    else if hasSuf m.ruleId ("-construct-signatures".toList) then
      { (extractSymbolV2Base m) with name := extractConstructSignature m.text }
    else if hasSuf m.ruleId ("-index-signatures".toList) then
      { (extractSymbolV2Base m) with name := extractIndexSignature m.text }
    else if hasSuf m.ruleId ("-variable-declarations".toList) then
      { (extractSymbolV2Base m) with name := (extractVarDeclarationNames m.text lang).headD [] }
    else if hasSuf m.ruleId ("-function-expressions".toList) then
      { (extractSymbolV2Base m) with name := extractFunctionExpressionName m.text lang }
    else if hasSuf m.ruleId ("-static-blocks".toList) then
      { (extractSymbolV2Base m) with name := "(static block)".toList }
    else if hasSuf m.ruleId ("-ref-function-calls".toList) then
      { (extractSymbolV2Base m) with name := extractCallExpressionName m.text }
    else if hasSuf m.ruleId ("-ref-new-expressions".toList) then
      { (extractSymbolV2Base m) with name := extractNewExpressionName m.text }
    else if hasSuf m.ruleId ("-ref-type-references".toList) then
      { (extractSymbolV2Base m) with name := extractTypeReferenceName m.text }
    else extractSymbolV2Base m

/-- Model of `extractSymbolV2` (astgrep.go:419-523): the dispatched record
with the modifiers extracted last. -/
def extractSymbolV2 (m : ScanMatch) (lang : Str) : Symbol :=
  { extractSymbolV2Core m lang with modifiers := extractModifiers m.text lang }

/-- Best-container loop of `findContainingScope` (astgrep.go:2130-2140):
keep the qualifying container with the strictly greatest start line seen so
far; earlier containers win ties. -/
def fcsLoop (L : Int) : Option ScopeContainer → List ScopeContainer → Option ScopeContainer
  | best, [] => best
  | best, c :: rest =>
    if c.startLine < L ∧ L ≤ c.endLine then
      match best with
      | none => fcsLoop L (some c) rest
      | some b =>
        if b.startLine < c.startLine then fcsLoop L (some c) rest
        else fcsLoop L best rest
    else fcsLoop L best rest

/-- Model of `findContainingScope` (astgrep.go:2129-2145). -/
def findContainingScope (symbolLine : Int) (containers : List ScopeContainer) : Str :=
  match fcsLoop symbolLine none containers with
  | some best => best.kind ++ (":".toList) ++ best.name
  | none => "global".toList

/-- Seen-set recursion of `dedupe` (types.go:117-128). -/
def dedupeAux (seen : List Str) : List Str → List Str
  | [] => []
  | x :: rest =>
    if x ∈ seen then dedupeAux seen rest
    else x :: dedupeAux (x :: seen) rest

/-- Model of `dedupe` (types.go:117-128): drop later duplicates, keeping
first-seen order. -/
def dedupe (items : List Str) : List Str := dedupeAux [] items

/-- Dedupe key of a symbol. -/
def symKey (s : Symbol) : Str × SymbolKind × SymbolRole × Int :=
  (s.name, s.kind, s.role, s.line)

/-- Seen-set recursion of `dedupeSymbols`. -/
def dedupeSymbolsAux (seen : List (Str × SymbolKind × SymbolRole × Int)) :
    List Symbol → List Symbol
  | [] => []
  | s :: rest =>
    if symKey s ∈ seen then dedupeSymbolsAux seen rest
    else s :: dedupeSymbolsAux (symKey s :: seen) rest

/-- Modelled from the spec: `dedupeSymbols`, called by `ScanDirectoryV2`
(astgrep.go:411) but defined in a source file absent from this snapshot, is
specified in §3.1 to drop every later symbol sharing `(name, kind, role,
line)` with an earlier one, preserving first-seen order. -/
def dedupeSymbols (syms : List Symbol) : List Symbol := dedupeSymbolsAux [] syms

/-- Relative path of a matched file under the scan root
(`filepath.Rel(root, m.File)` at astgrep.go:377 for files below the root;
a file not below the root is kept as is, as in the `relPath == ""`
fallback). -/
def relPathOf (root file : Str) : Str :=
  if hasPre file (root ++ ("/".toList)) then file.drop (root.length + 1) else file

/-- Insertion order of the per-file grouping map of `ScanDirectoryV2`: one
key per file, first-seen order. -/
def scanKeys (root : Str) (ms : List ScanMatch) : List Str :=
  dedupe (ms.map (fun m => relPathOf root m.file))

/-- The matches of one file, in emission order. -/
def matchesFor (root : Str) (ms : List ScanMatch) (path : Str) : List ScanMatch :=
  ms.filter (fun m => decide (relPathOf root m.file = path))

/-- Language of a file's analysis: detected from the rule id of the file's
first match, which created the `FileAnalysisV2` entry (astgrep.go:382-389). -/
def fileLang (root : Str) (ms : List ScanMatch) (path : Str) : Str :=
  match matchesFor root ms path with
  | [] => []
  | m :: _ => detectLangFromRuleID m.ruleId

/-- The Go receiver override of the assembler (astgrep.go:398-403): for a
Go `-methods` match with a non-empty extracted receiver type, the scope is
overwritten with `struct:<receiver>`. -/
def resolveGoMethodScope (lang : Str) (m : ScanMatch) (sym : Symbol) : Symbol :=
  if lang = "go".toList ∧ hasSuf m.ruleId ("-methods".toList) then
    (if extractGoReceiverType m.text ≠ [] then
      { sym with scope := ("struct:".toList) ++ extractGoReceiverType m.text }
    else sym)
  else sym

/-- Scope resolution applied to an extracted symbol (astgrep.go:394-403,
continued): container lookup first, then the Go receiver override. -/
def resolveSymbol (fileContainers : List ScopeContainer) (lang : Str)
    (m : ScanMatch) (sym : Symbol) : Symbol :=
  resolveGoMethodScope lang m
    (if fileContainers ≠ [] then
      { sym with scope := findContainingScope sym.line fileContainers }
    else sym)

/-- The pre-dedupe symbol sequence of one file: each match is extracted,
kept when the name is non-empty, and scope-resolved (astgrep.go:391-405). -/
def rawSymbolsFor (root : Str) (ms : List ScanMatch)
    (containers : Str → List ScopeContainer) (path : Str) : List Symbol :=
  (matchesFor root ms path).filterMap (fun m =>
    if (extractSymbolV2 m (fileLang root ms path)).name = [] then none
    else some (resolveSymbol (containers path) (fileLang root ms path) m
      (extractSymbolV2 m (fileLang root ms path))))

/-- The finished analysis of one file (grouping plus the final
`dedupeSymbols` pass of astgrep.go:408-413). -/
def analysisFor (root : Str) (ms : List ScanMatch)
    (containers : Str → List ScopeContainer) (path : Str) : FileAnalysisV2 :=
  { path := path, language := fileLang root ms path,
    symbols := dedupeSymbols (rawSymbolsFor root ms containers path) }

/-- Model of the result assembly of `ScanDirectoryV2` (astgrep.go:373-416).
The matcher subprocess is the wire boundary: `matches` is its parsed JSON
output and `containers` the per-file container map of the first pass.
`order` is the iteration order of the Go grouping map — an arbitrary
permutation of `scanKeys`, since Go randomizes map iteration. -/
def scanDirectoryV2 (root : Str) (ms : List ScanMatch)
    (containers : Str → List ScopeContainer) (order : List Str) :
    List FileAnalysisV2 :=
  order.map (analysisFor root ms containers)

/-- Modelled from the spec: the error taxonomy of §4.2/§7
(`MatcherUnavailable`, `MatcherOutputInvalid`, ...).  The Go code has no
such type — these names appear only in the specification. -/
inductive ScanError
  | MatcherUnavailable
  | MatcherOutputInvalid
deriving DecidableEq

/-- Model of the guarded entry of `ScanDirectoryV2` (astgrep.go:324-327):
when no matcher binary was found (`Available()` false, i.e. the stored
binary name is empty) the method returns `nil, nil` — an empty success —
and otherwise the assembled analyses with a nil error. -/
def scanDirectoryV2Run (binary root : Str) (ms : List ScanMatch)
    (containers : Str → List ScopeContainer) (order : List Str) :
    Except ScanError (List FileAnalysisV2) :=
  if binary = [] then Except.ok []
  else Except.ok (scanDirectoryV2 root ms containers order)

/-- Model of Go `filepath.Base` for slash-separated paths. -/
def pathBase (p : Str) : Str :=
  if p = [] then ".".toList
  else
    let q := (p.reverse.dropWhile (fun c => c == '/')).reverse
    if q = [] then "/".toList
    else
      match lastIndexOf q ("/".toList) with
      | some i => q.drop (i + 1)
      | none => q

/-- Model of Go `filepath.Ext`: the suffix starting at the final dot of the
final path element, empty when there is none. -/
def pathExt (p : Str) : Str :=
  let revSeg := p.reverse.takeWhile (fun c => ¬ (c == '/'))
  match gFindIdx (fun c => c == '.') revSeg with
  | some i => (revSeg.take (i + 1)).reverse
  | none => []

/-- Model of Go `filepath.Dir` for already-clean slash-separated paths
(the only paths the import index handles): everything before the last
slash, `"."` when there is none. -/
def pathDir (p : Str) : Str :=
  match lastIndexOf p ("/".toList) with
  | none => ".".toList
  | some i =>
    let d := p.take i
    if d = [] then "/".toList else d

/-- One traversed file (`FileInfo`, types.go:9-16); `AnalyzeImpact` reads
only the `path` field. -/
structure FileInfo where
  path : Str
  size : Int := 0
  ext : Str := []
  isNew : Bool := false
  added : Int := 0
  removed : Int := 0
deriving DecidableEq

/-- One analyzed file of the V1 scan (`FileAnalysis`, types.go:32-46); the
index of imports reads `path` and `imports`. -/
structure FileAnalysis where
  path : Str
  language : Str := []
  functions : List Str := []
  imports : List Str := []
  structs : List Str := []
  interfaces : List Str := []
  types : List Str := []
  constants : List Str := []
  methods : List Str := []
  vars : List Str := []
  fieldNames : List Str := []
  properties : List Str := []
  decorators : List Str := []
deriving DecidableEq

/-- Replace-or-append write of a Go string map (`m[k] = v`). -/
def assocSet (l : List (Str × Str)) (k v : Str) : List (Str × Str) :=
  if l.any (fun p => decide (p.1 = k)) then
    l.map (fun p => if p.1 = k then (k, v) else p)
  else l ++ [(k, v)]

/-- Write-if-absent of a Go string map (`if _, ok := m[k]; !ok`). -/
def assocSetIfAbsent (l : List (Str × Str)) (k v : Str) : List (Str × Str) :=
  match assocGet l k with
  | some _ => l
  | none => l ++ [(k, v)]

/-- Increment of a Go counter map (`m[k]++`, missing keys start at 0). -/
def bumpCount (l : List (Str × Nat)) (k : Str) : List (Str × Nat) :=
  if l.any (fun p => decide (p.1 = k)) then
    l.map (fun p => if p.1 = k then (p.1, p.2 + 1) else p)
  else l ++ [(k, 1)]

/-- Impact summary of one changed file (`ImpactInfo`, git.go:158-161). -/
structure ImpactInfo where
  file : Str
  usedBy : Nat
deriving DecidableEq

/-- Descending insertion used to model git.go:230-232 (`sort.Slice` on
`UsedBy >`; the order among equal counts is unspecified in Go). -/
def insertByCountDesc (x : ImpactInfo) : List ImpactInfo → List ImpactInfo
  | [] => [x]
  | y :: ys => if y.usedBy < x.usedBy then x :: y :: ys else y :: insertByCountDesc x ys

/-- Sort impacts by descending importer count. -/
def sortByCountDesc : List ImpactInfo → List ImpactInfo
  | [] => []
  | x :: xs => insertByCountDesc x (sortByCountDesc xs)

/-- The changed-file base-name map of `AnalyzeImpact` (git.go:171-175):
stem of the base name (extension stripped) to full path, later files
overwriting earlier ones. -/
def changedBasesOf (changedFiles : List FileInfo) : List (Str × Str) :=
  changedFiles.foldl
    (fun acc f => assocSet acc (dropSuf (pathBase f.path) (pathExt f.path)) f.path)
    []

/-- The changed-directory map of `AnalyzeImpact` (git.go:177-184): base
name of the enclosing directory to a representative file, first writer
winning. -/
def changedDirsOf (changedFiles : List FileInfo) : List (Str × Str) :=
  changedFiles.foldl
    (fun acc f =>
      let dir := pathDir f.path
      if dir ≠ (".".toList) ∧ dir ≠ [] then
        assocSetIfAbsent acc (pathBase dir) f.path
      else acc)
    []

/-- One import's contribution to the usage counts (git.go:196-215). -/
def impactStep (changedBases changedDirs : List (Str × Str)) (analysisPath : Str)
    (counts : List (Str × Nat)) (imp : Str) : List (Str × Nat) :=
  let impBase := pathBase imp
  let impBase := dropSuf impBase (pathExt impBase)
  let counts :=
    match assocGet changedBases impBase with
    | some changedPath =>
      if analysisPath ≠ changedPath then bumpCount counts changedPath else counts
    | none => counts
  match assocGet changedDirs impBase with
  | some changedPath =>
    let changedDir := pathDir changedPath
    if pathDir analysisPath ≠ changedDir then
      bumpCount counts (changedDir ++ ("/".toList))
    else counts
  | none => counts

/-- Model of `AnalyzeImpact` (git.go:165-235).  The `ScanForDeps` call is
the subprocess boundary, so the per-file analyses arrive as an argument;
the usage-count map is iterated in insertion order (Go randomizes it, and
the theorems below only evaluate single-entry maps). -/
def analyzeImpact (changedFiles : List FileInfo) (analyses : List FileAnalysis) :
    List ImpactInfo :=
  if changedFiles = [] then []
  else
    let changedBases := changedBasesOf changedFiles
    let changedDirs := changedDirsOf changedFiles
    let usageCounts :=
      analyses.foldl
        (fun acc analysis =>
          analysis.imports.foldl (impactStep changedBases changedDirs analysis.path) acc)
        []
    sortByCountDesc
      ((usageCounts.filter (fun p => decide (0 < p.2))).map
        (fun p => { file := pathBase p.1, usedBy := p.2 }))

/-- Importer test of `handleGetImporters` (part_012:429-439): an import
matches the target by base name, stem, path suffix, or package directory. -/
def importMatchesTarget (targetBase targetNoExt targetFile targetDir imp : Str) : Bool :=
  let impBase := pathBase imp
  let impNoExt := dropSuf impBase (pathExt impBase)
  decide (impBase = targetBase) || decide (impNoExt = targetNoExt) ||
    hasSuf imp targetFile || hasSuf imp targetDir || decide (imp = targetDir)

/-- Model of the importer search of `handleGetImporters` (part_012:410-447):
files in the target's own directory are skipped, every other file is
reported once if any of its imports matches the target. -/
def getImporters (analyses : List FileAnalysis) (targetFile : Str) : List Str :=
  let targetBase := pathBase targetFile
  let targetNoExt := dropSuf targetBase (pathExt targetBase)
  let targetDir := pathDir targetFile
  analyses.filterMap (fun a =>
    if pathDir a.path = targetDir then none
    else if a.imports.any (importMatchesTarget targetBase targetNoExt targetFile targetDir) then
      some a.path
    else none)

/-- The identifier regex of the specification (§4.3 / §8):
`[A-Za-z_][A-Za-z0-9_]*`, with `#` additionally allowed as the first
character when `allowHash` is set (the spec grants that only to the
ECMAScript family). -/
def specIdentRegex (allowHash : Bool) : Str → Bool
  | [] => false
  | c :: rest =>
    (('a' ≤ c && c ≤ 'z') || ('A' ≤ c && c ≤ 'Z') || c == '_' ||
        (allowHash && c == '#')) &&
      rest.all (fun d =>
        ('a' ≤ d && d ≤ 'z') || ('A' ≤ d && d ≤ 'Z') || ('0' ≤ d && d ≤ '9') || d == '_')

/-- Concrete fixture: a `go-functions` match in `r/a.go`. -/
def exMatchGoA : ScanMatch :=
  { file := "r/a.go".toList, ruleId := "go-functions".toList, line := 0, column := 0,
    text := "func A() \x7b\x7d".toList, lines := "func A() \x7b\x7d".toList }

/-- Concrete fixture: a `go-functions` match in `r/b.go`. -/
def exMatchGoB : ScanMatch :=
  { file := "r/b.go".toList, ruleId := "go-functions".toList, line := 0, column := 0,
    text := "func B() \x7b\x7d".toList, lines := "func B() \x7b\x7d".toList }

/-- Concrete fixture: a `go-methods` match whose receiver parenthetical
names only a pointer type and no receiver variable — legal Go. -/
def exMatchGoPtrMethod : ScanMatch :=
  { file := "r/a.go".toList, ruleId := "go-methods".toList, line := 2, column := 0,
    text := "func (*MyStruct) Method1() \x7b\x7d".toList,
    lines := "func (*MyStruct) Method1() \x7b\x7d".toList }

/-- Concrete fixture: a `ts-methods` match whose line buffer shows the
enclosing class header. -/
def exMatchTsMethod : ScanMatch :=
  { file := "r/f.ts".toList, ruleId := "ts-methods".toList, line := 2, column := 4,
    text := "method(): void \x7b\x7d".toList,
    lines := "class Foo \x7b method(): void \x7b\x7d \x7d".toList }

/-- Concrete fixture: the empty container map (the container pass found
nothing). -/
def noContainers : Str → List ScopeContainer := fun _ => []

/-- Concrete fixture: the symbol the scan assembles for `exMatchTsMethod`. -/
def exTsMethodSym : Symbol :=
  { name := "method".toList, kind := SymbolKind.KindMethod,
    role := SymbolRole.RoleDefinition, line := 2, column := 4,
    scope := "class:Foo".toList, modifiers := [] }

/-- Go method text with receiver variable `m` and a pointer receiver of the
given type. -/
def goMethodTextPtr (typ : Str) : Str :=
  ("func (m *".toList) ++ typ ++ (") Method1() \x7b\x7d".toList)

/-- The `go-methods` match built over `goMethodTextPtr`. -/
def goMethodMatchPtr (typ : Str) : ScanMatch :=
  { file := "r/a.go".toList, ruleId := "go-methods".toList, line := 2, column := 0,
    text := goMethodTextPtr typ, lines := goMethodTextPtr typ }

/-! ### Helper lemmas -/

theorem isPre_append (p s : Str) : isPre p (p ++ s) = true := by
  induction p with
  | nil => rfl
  | cons c rest ih => simp [isPre, ih]

theorem hasPre_true_contains (s p : Str) (h : hasPre s p = true) :
    containsSub s p = true := by
  cases s with
  | nil =>
    cases p with
    | nil => rfl
    | cons c rest => simp [hasPre, isPre] at h
  | cons c rest =>
    simp only [containsSub, indexOf]
    rw [show isPre p (c :: rest) = true from h]
    rfl

theorem modsSelect_eq_filter (fl : Str) (l : List Str) :
    modsSelect fl l = l.filter (fun m => containsSub fl (m ++ (" ".toList))) := by
  induction l with
  | nil => rfl
  | cons m rest ih =>
    cases hc : containsSub fl (m ++ [' ']) with
    | true => simp [modsSelect, hc, ih, List.filter_cons]
    | false =>
      cases hp : hasPre fl (m ++ [' ']) with
      | true => exact absurd (hasPre_true_contains _ _ hp) (by simp [hc])
      | false => simp [modsSelect, hc, hp, ih, List.filter_cons]

theorem validChars_succ (rest : Str) : ∀ i : Nat, validChars (i + 1) rest = rest.all validRestChar := by
  induction rest with
  | nil => intro i; rfl
  | cons d r ih =>
    intro i
    simp only [validChars, List.all_cons]
    rw [if_neg (by simp), ih (i + 1)]

/-! ### C2 — missing matcher binary: silent empty success, not an error -/

/-- Claim C2 (corrected): with no matcher binary found (`Available()` is
false), `ScanDirectoryV2` returns `nil, nil` — an empty result and a nil
error — for every input; the distinguished `MatcherUnavailable` error of
the spec is never produced (no such error exists in the code). -/
theorem scanRun_no_binary_returns_ok_empty (root : Str) (ms : List ScanMatch)
    (containers : Str → List ScopeContainer) (order : List Str) :
    scanDirectoryV2Run [] root ms containers order = Except.ok [] := by
  simp [scanDirectoryV2Run]

/-- Counterexample to claim C2 as stated: at a concrete scan input with the
binary name empty, the result is the silent empty success `.ok []`, not an
error — in particular not `MatcherUnavailable`. -/
theorem scanRun_no_binary_counterexample :
    scanDirectoryV2Run [] ("r".toList)
        [{ file := "r/a.go".toList, ruleId := "go-functions".toList, line := 0,
           column := 0, text := "func A() \x7b\x7d".toList,
           lines := "func A() \x7b\x7d".toList }]
        (fun _ => []) ["a.go".toList] = Except.ok [] ∧
      ∀ e : ScanError,
        scanDirectoryV2Run [] ("r".toList)
            [{ file := "r/a.go".toList, ruleId := "go-functions".toList, line := 0,
               column := 0, text := "func A() \x7b\x7d".toList,
               lines := "func A() \x7b\x7d".toList }]
            (fun _ => []) ["a.go".toList] ≠ Except.error e := by
  constructor
  · rfl
  · intro e h
    simp [scanDirectoryV2Run] at h

/-! ### C5 — Java import texts are handled by the generic `import ` stage -/

/-- Claim C5 (code bug): for the Java import text `import a.b.C;` with no
`PATH` meta-variable, `extractImportPath` returns `a.b.C;` — the second
whitespace token, semicolon included — because the generic `import ` stage
(commented "Python" in the source) fires before the dedicated Java stage,
which is unreachable; that dead Java stage would have produced `a.b` as the
spec describes. -/
theorem extractImportPath_java_shadowed :
    extractImportPath ("import a.b.C;".toList) = ("a.b.C;".toList) ∧
      importPathImport ("import a.b.C;".toList) = some ("a.b.C;".toList) ∧
      importPathJava ("import a.b.C;".toList) = some ("a.b".toList) := by
  refine ⟨by decide, by decide, by decide⟩

/-! ### C6 — identifier validity -/

/-- Claim C6 (corrected, amended): the identifier validator accepts exactly
the strings matching `[A-Za-z_#][A-Za-z0-9_]*` — the `#` first character is
allowed in every language, not only the ECMAScript family, because
`isValidIdentifier` takes no language argument. -/
theorem isValidIdentifier_eq_hash_regex (s : Str) :
    isValidIdentifier s = specIdentRegex true s := by
  cases s with
  | nil => rfl
  | cons c rest =>
    simp only [isValidIdentifier, specIdentRegex, validChars,
      if_pos (by rfl : ((0 : Nat) == 0) = true), validChars_succ,
      if_neg (List.cons_ne_nil c rest)]
    rfl

/-- Counterexample to claim C6 as stated: a `c-functions` match (C, not an
ECMAScript language) whose text is `void #f()` is emitted by the scan with
the non-placeholder name `#f`, which does not satisfy the claimed
no-hash regex `[A-Za-z_][A-Za-z0-9_]*`. -/
theorem scan_emits_hash_name_outside_ecmascript :
    ((scanDirectoryV2 ("r".toList)
        [{ file := "r/f.c".toList, ruleId := "c-functions".toList, line := 3,
           column := 0, text := "void #f()".toList, lines := "void #f()".toList }]
        (fun _ => []) ["f.c".toList]).map
      (fun fa => (fa.language, fa.symbols.map Symbol.name))) =
        [("c".toList, [("#f".toList)])] ∧
      specIdentRegex false ("#f".toList) = false ∧
      ("#f".toList) ∉ [("()".toList), ("new()".toList), ("(static block)".toList)] ∧
      ("#f".toList).head? ≠ some '[' := by
  refine ⟨by decide, by decide, by decide, by decide⟩

/-! ### C7 — modifier extraction -/

/-- Claim C7 (corrected, amended): in the ECMAScript family the extracted
modifier list consists of exactly those members `m` of the fixed modifier
set for which `m` followed by a space occurs as a substring of the first
line of the text (up to the newline or first opening brace), listed in the
fixed set's enumeration order (public, private, protected, static,
readonly, async, abstract, override, export, default) — not in source
order; for other languages the list is empty. -/
theorem extractModifiers_filters_fixed_set (text lang : Str) :
    extractModifiers text lang =
      if lang = "typescript".toList ∨ lang = "javascript".toList then
        tsModifierSet.filter
          (fun m => containsSub (modifierFirstLine text) (m ++ (" ".toList)))
      else [] := by
  by_cases h : lang = "typescript".toList ∨ lang = "javascript".toList
  · unfold extractModifiers
    rw [if_neg (not_not_intro h), if_pos h, modsSelect_eq_filter]
  · unfold extractModifiers
    rw [if_pos h, if_neg h]

/-- Counterexample to claim C7 as stated: in `static public foo() {}` the
word `static` occurs before `public` (source order), yet the extracted list
is `public, static` — the fixed set's order, not source order. -/
theorem extractModifiers_not_source_order :
    extractModifiers ("static public foo() \x7b\x7d".toList) ("typescript".toList) =
        [("public".toList), ("static".toList)] ∧
      indexOf ("static public foo() \x7b\x7d".toList) ("static ".toList) = some 0 ∧
      indexOf ("static public foo() \x7b\x7d".toList) ("public ".toList) = some 7 := by
  refine ⟨by decide, by decide, by decide⟩

/-! ### C1 — scan output order -/

/-- Claim C1 (corrected, amended): for a fixed matcher output, the scan
result is determined up to the order of the `FileAnalysis` records: any two
iteration orders of the grouping map (permutations of each other) produce
permuted result lists with identical per-file content. -/
theorem scan_results_perm_invariant (root : Str) (ms : List ScanMatch)
    (containers : Str → List ScopeContainer) (o1 o2 : List Str)
    (h : o1.Perm o2) :
    (scanDirectoryV2 root ms containers o1).Perm
      (scanDirectoryV2 root ms containers o2) :=
  h.map _

/-- Witness for the permutation-invariance theorem at a concrete two-file
scan. -/
theorem scan_results_perm_invariant_witness :
    (scanDirectoryV2 ("r".toList) [exMatchGoA, exMatchGoB] noContainers
        ["a.go".toList, "b.go".toList]).Perm
      (scanDirectoryV2 ("r".toList) [exMatchGoA, exMatchGoB] noContainers
        ["b.go".toList, "a.go".toList]) :=
  scan_results_perm_invariant _ _ _ _ _
    (List.Perm.swap ("b.go".toList) ("a.go".toList) [])

/-- Counterexample to claim C1 as stated: on a two-file tree, two iteration
orders of the grouping map — both permutations of the map's key set, and Go
randomizes which one a run sees — give differently ordered (hence not
byte-identical) result slices. -/
theorem scan_order_not_deterministic :
    scanKeys ("r".toList) [exMatchGoA, exMatchGoB] =
        ["a.go".toList, "b.go".toList] ∧
      (["b.go".toList, "a.go".toList]).Perm
        (scanKeys ("r".toList) [exMatchGoA, exMatchGoB]) ∧
      scanDirectoryV2 ("r".toList) [exMatchGoA, exMatchGoB] noContainers
          ["a.go".toList, "b.go".toList] ≠
        scanDirectoryV2 ("r".toList) [exMatchGoA, exMatchGoB] noContainers
          ["b.go".toList, "a.go".toList] := by
  refine ⟨by decide, ?_, by decide⟩
  rw [show scanKeys ("r".toList) [exMatchGoA, exMatchGoB] =
      ["a.go".toList, "b.go".toList] by decide]
  exact List.Perm.swap ("a.go".toList) ("b.go".toList) []

/-! ### C3 — symbol deduplication -/

theorem dedupeSymbolsAux_sublist (l : List Symbol) :
    ∀ seen, (dedupeSymbolsAux seen l).Sublist l := by
  induction l with
  | nil => intro seen; simp [dedupeSymbolsAux]
  | cons s rest ih =>
    intro seen
    by_cases h : symKey s ∈ seen
    · simp only [dedupeSymbolsAux, if_pos h]
      exact (ih seen).cons s
    · simp only [dedupeSymbolsAux, if_neg h]
      exact (ih (symKey s :: seen)).cons₂ s

theorem dedupeSymbolsAux_spec (l : List Symbol) :
    ∀ seen, (∀ t ∈ dedupeSymbolsAux seen l, symKey t ∉ seen) ∧
      (dedupeSymbolsAux seen l).Pairwise (fun a b => symKey a ≠ symKey b) := by
  induction l with
  | nil => intro seen; simp [dedupeSymbolsAux]
  | cons s rest ih =>
    intro seen
    by_cases h : symKey s ∈ seen
    · simp only [dedupeSymbolsAux, if_pos h]
      exact ih seen
    · simp only [dedupeSymbolsAux, if_neg h]
      obtain ⟨ihmem, ihpw⟩ := ih (symKey s :: seen)
      constructor
      · intro t ht
        rcases List.mem_cons.mp ht with rfl | ht'
        · exact h
        · intro hts
          exact (ihmem t ht') (List.mem_cons_of_mem _ hts)
      · refine List.Pairwise.cons ?_ ihpw
        intro b hb heq
        exact (ihmem b hb) (heq ▸ List.mem_cons_self _ _)

theorem dedupeSymbolsAux_complete (l : List Symbol) :
    ∀ seen s, s ∈ l →
      symKey s ∈ seen ∨ ∃ t ∈ dedupeSymbolsAux seen l, symKey t = symKey s := by
  induction l with
  | nil => intro seen s hs; exact absurd hs (List.not_mem_nil s)
  | cons x rest ih =>
    intro seen s hs
    by_cases hx : symKey x ∈ seen
    · simp only [dedupeSymbolsAux, if_pos hx]
      rcases List.mem_cons.mp hs with rfl | hs'
      · exact Or.inl hx
      · exact ih seen s hs'
    · simp only [dedupeSymbolsAux, if_neg hx]
      rcases List.mem_cons.mp hs with rfl | hs'
      · exact Or.inr ⟨s, List.mem_cons_self _ _, rfl⟩
      · rcases ih (symKey x :: seen) s hs' with hseen | ⟨t, ht, hkey⟩
        · rcases List.mem_cons.mp hseen with heq | hseen'
          · exact Or.inr ⟨x, List.mem_cons_self _ _, heq.symm⟩
          · exact Or.inl hseen'
        · exact Or.inr ⟨t, List.mem_cons_of_mem _ ht, hkey⟩

/-- Claim C3 (confirmed, with `dedupeSymbols` modelled from the spec): in
every `FileAnalysis` returned by a scan, no two symbols share all of
`(name, kind, role, line)`; the kept symbols are a subsequence of the
pre-dedupe sequence (first-seen order preserved); and every pre-dedupe
symbol — in particular every one with a non-empty name, since only those
enter the sequence — is represented by exactly one kept symbol with its
quadruple. -/
theorem scan_file_symbols_dedupe (root : Str) (ms : List ScanMatch)
    (containers : Str → List ScopeContainer) (order : List Str)
    (fa : FileAnalysisV2) (hfa : fa ∈ scanDirectoryV2 root ms containers order) :
    fa.symbols.Pairwise (fun a b => symKey a ≠ symKey b) ∧
      fa.symbols.Sublist (rawSymbolsFor root ms containers fa.path) ∧
      ∀ s ∈ rawSymbolsFor root ms containers fa.path,
        ∃ t ∈ fa.symbols, symKey t = symKey s := by
  rcases List.mem_map.mp hfa with ⟨p, _, rfl⟩
  simp only [analysisFor, dedupeSymbols]
  refine ⟨(dedupeSymbolsAux_spec _ []).2, dedupeSymbolsAux_sublist _ [], ?_⟩
  intro s hs
  rcases dedupeSymbolsAux_complete _ [] s hs with hseen | h
  · exact absurd hseen (List.not_mem_nil _)
  · exact h

/-- Witness for the dedupe theorem: a scan whose matcher output repeats the
same match twice keeps the symbol once. -/
theorem scan_file_symbols_dedupe_witness :
    (analysisFor ("r".toList) [exMatchGoA, exMatchGoA] noContainers
          ("a.go".toList)).symbols.Pairwise (fun a b => symKey a ≠ symKey b) ∧
      (analysisFor ("r".toList) [exMatchGoA, exMatchGoA] noContainers
          ("a.go".toList)).symbols.Sublist
        (rawSymbolsFor ("r".toList) [exMatchGoA, exMatchGoA] noContainers
          (analysisFor ("r".toList) [exMatchGoA, exMatchGoA] noContainers
            ("a.go".toList)).path) ∧
      ∀ s ∈ rawSymbolsFor ("r".toList) [exMatchGoA, exMatchGoA] noContainers
          (analysisFor ("r".toList) [exMatchGoA, exMatchGoA] noContainers
            ("a.go".toList)).path,
        ∃ t ∈ (analysisFor ("r".toList) [exMatchGoA, exMatchGoA] noContainers
            ("a.go".toList)).symbols, symKey t = symKey s :=
  scan_file_symbols_dedupe ("r".toList) [exMatchGoA, exMatchGoA] noContainers
    ["a.go".toList] _ (by decide)

/-! ### C4 — innermost-scope resolution -/

theorem fcsLoop_some_ne_none (L : Int) (cs : List ScopeContainer) :
    ∀ b, fcsLoop L (some b) cs ≠ none := by
  induction cs with
  | nil => intro b h; exact Option.noConfusion h
  | cons c rest ih =>
    intro b
    by_cases hq : c.startLine < L ∧ L ≤ c.endLine
    · simp only [fcsLoop, if_pos hq]
      by_cases hlt : b.startLine < c.startLine
      · rw [if_pos hlt]; exact ih c
      · rw [if_neg hlt]; exact ih b
    · simp only [fcsLoop, if_neg hq]
      exact ih b

theorem fcsLoop_eq_none_iff (L : Int) (cs : List ScopeContainer) :
    ∀ best, fcsLoop L best cs = none ↔
      (best = none ∧ ∀ c ∈ cs, ¬(c.startLine < L ∧ L ≤ c.endLine)) := by
  induction cs with
  | nil => intro best; simp [fcsLoop]
  | cons c rest ih =>
    intro best
    by_cases hq : c.startLine < L ∧ L ≤ c.endLine
    · cases best with
      | none =>
        simp only [fcsLoop, if_pos hq]
        constructor
        · intro h; exact absurd h (fcsLoop_some_ne_none L rest c)
        · rintro ⟨-, hall⟩; exact absurd hq (hall c (List.mem_cons_self _ _))
      | some b =>
        simp only [fcsLoop, if_pos hq]
        constructor
        · intro h
          by_cases hlt : b.startLine < c.startLine
          · rw [if_pos hlt] at h; exact absurd h (fcsLoop_some_ne_none L rest c)
          · rw [if_neg hlt] at h; exact absurd h (fcsLoop_some_ne_none L rest b)
        · rintro ⟨h, -⟩; exact Option.noConfusion h
    · simp only [fcsLoop, if_neg hq]
      rw [ih best]
      simp only [List.forall_mem_cons]
      exact ⟨fun ⟨h1, h2⟩ => ⟨h1, hq, h2⟩, fun ⟨h1, _, h2⟩ => ⟨h1, h2⟩⟩

theorem fcsLoop_some_spec (L : Int) (cs : List ScopeContainer) :
    ∀ best r, fcsLoop L best cs = some r →
      (best = some r ∨ (r ∈ cs ∧ (r.startLine < L ∧ L ≤ r.endLine))) ∧
        (∀ c ∈ cs, (c.startLine < L ∧ L ≤ c.endLine) → c.startLine ≤ r.startLine) ∧
        (∀ b, best = some b → b.startLine ≤ r.startLine) := by
  induction cs with
  | nil =>
    intro best r h
    simp only [fcsLoop] at h
    refine ⟨Or.inl h, by simp, ?_⟩
    intro b hb
    rw [hb] at h
    cases h
    exact le_refl _
  | cons c rest ih =>
    intro best r h
    by_cases hq : c.startLine < L ∧ L ≤ c.endLine
    · cases best with
      | none =>
        simp only [fcsLoop, if_pos hq] at h
        obtain ⟨h1, h2, h3⟩ := ih (some c) r h
        refine ⟨?_, ?_, ?_⟩
        · rcases h1 with hc | ⟨hm, hqr⟩
          · cases hc
            exact Or.inr ⟨List.mem_cons_self _ _, hq⟩
          · exact Or.inr ⟨List.mem_cons_of_mem _ hm, hqr⟩
        · intro c' hc' hq'
          rcases List.mem_cons.mp hc' with rfl | hm
          · exact h3 c' rfl
          · exact h2 c' hm hq'
        · intro b hb; exact Option.noConfusion hb
      | some b =>
        by_cases hlt : b.startLine < c.startLine
        · simp only [fcsLoop, if_pos hq, if_pos hlt] at h
          obtain ⟨h1, h2, h3⟩ := ih (some c) r h
          refine ⟨?_, ?_, ?_⟩
          · rcases h1 with hc | ⟨hm, hqr⟩
            · cases hc
              exact Or.inr ⟨List.mem_cons_self _ _, hq⟩
            · exact Or.inr ⟨List.mem_cons_of_mem _ hm, hqr⟩
          · intro c' hc' hq'
            rcases List.mem_cons.mp hc' with rfl | hm
            · exact h3 c' rfl
            · exact h2 c' hm hq'
          · intro b' hb'
            cases hb'
            exact (le_of_lt hlt).trans (h3 c rfl)
        · simp only [fcsLoop, if_pos hq, if_neg hlt] at h
          obtain ⟨h1, h2, h3⟩ := ih (some b) r h
          refine ⟨?_, ?_, ?_⟩
          · rcases h1 with hc | ⟨hm, hqr⟩
            · exact Or.inl hc
            · exact Or.inr ⟨List.mem_cons_of_mem _ hm, hqr⟩
          · intro c' hc' hq'
            rcases List.mem_cons.mp hc' with rfl | hm
            · exact (le_of_not_lt hlt).trans (h3 b rfl)
            · exact h2 c' hm hq'
          · intro b' hb'
            cases hb'
            exact h3 b rfl
    · simp only [fcsLoop, if_neg hq] at h
      obtain ⟨h1, h2, h3⟩ := ih best r h
      refine ⟨?_, ?_, h3⟩
      · rcases h1 with hc | ⟨hm, hqr⟩
        · exact Or.inl hc
        · exact Or.inr ⟨List.mem_cons_of_mem _ hm, hqr⟩
      · intro c' hc' hq'
        rcases List.mem_cons.mp hc' with rfl | hm
        · exact absurd hq' hq
        · exact h2 c' hm hq'

/-- Claim C4 (confirmed): `findContainingScope` returns `global` exactly
when no container's half-open range `(start_line, end_line]` strictly
includes the query line — so a symbol on a container's own start line never
resolves to that container — and otherwise returns `<kind>:<name>` of a
qualifying container with the greatest start line (stated for inputs whose
maximal-start qualifiers agree on kind and name, which covers the tie
ambiguity the claim leaves open). -/
theorem findContainingScope_spec (L : Int) (cs : List ScopeContainer) :
    (findContainingScope L cs = "global".toList ↔
        ∀ c ∈ cs, ¬(c.startLine < L ∧ L ≤ c.endLine)) ∧
      ∀ b ∈ cs, (b.startLine < L ∧ L ≤ b.endLine) →
        (∀ c ∈ cs, (c.startLine < L ∧ L ≤ c.endLine) → c.startLine ≤ b.startLine) →
        (∀ c ∈ cs, (c.startLine < L ∧ L ≤ c.endLine) → c.startLine = b.startLine →
          c.kind = b.kind ∧ c.name = b.name) →
        findContainingScope L cs = b.kind ++ (":".toList) ++ b.name := by
  constructor
  · constructor
    · intro h
      cases hr : fcsLoop L none cs with
      | none => exact ((fcsLoop_eq_none_iff L cs none).mp hr).2
      | some r =>
        have hmem : (':' : Char) ∈ r.kind ++ (":".toList) ++ r.name := by simp
        have heq : findContainingScope L cs = r.kind ++ (":".toList) ++ r.name := by
          rw [findContainingScope, hr]
        rw [heq] at h
        rw [h] at hmem
        exact absurd hmem (by decide)
    · intro hnone
      rw [findContainingScope, (fcsLoop_eq_none_iff L cs none).mpr ⟨rfl, hnone⟩]
  · intro b hb hqb hmax htie
    cases hr : fcsLoop L none cs with
    | none =>
      exact absurd hqb (((fcsLoop_eq_none_iff L cs none).mp hr).2 b hb)
    | some r =>
      obtain ⟨h1, h2, _⟩ := fcsLoop_some_spec L cs none r hr
      rcases h1 with hc | ⟨hrmem, hrq⟩
      · exact Option.noConfusion hc
      · have hle : b.startLine ≤ r.startLine := h2 b hb hqb
        have hge : r.startLine ≤ b.startLine := hmax r hrmem hrq
        obtain ⟨hk, hn⟩ := htie r hrmem hrq (le_antisymm hge hle)
        have heq : findContainingScope L cs = r.kind ++ (":".toList) ++ r.name := by
          rw [findContainingScope, hr]
        rw [heq, hk, hn]

/-- Witness for the scope-resolution theorem: a line inside a class body
resolves to the class, and the class's own start line resolves to
`global`. -/
theorem findContainingScope_spec_witness :
    findContainingScope 5 [⟨"class".toList, "Foo".toList, 1, 10⟩] =
        ("class:Foo".toList) ∧
      findContainingScope 1 [⟨"class".toList, "Foo".toList, 1, 10⟩] =
        ("global".toList) := by
  constructor
  · have h := (findContainingScope_spec 5
        [⟨"class".toList, "Foo".toList, 1, 10⟩]).2
      ⟨"class".toList, "Foo".toList, 1, 10⟩ (by decide) (by decide)
      (by decide) (by decide)
    exact h.trans (by decide)
  · exact (findContainingScope_spec 1
      [⟨"class".toList, "Foo".toList, 1, 10⟩]).1.mpr (by decide)

/-! ### C9 — importer queries and the same-directory convention -/

/-- Claim C9 (corrected, amended): the `who-imports` query
(`handleGetImporters`) never reports a file in the target's enclosing
directory — but the impact query (`AnalyzeImpact`) excludes only the
changed file itself in its filename-based matching, so same-directory
importers do count there (see the counterexample). -/
theorem getImporters_not_same_dir (analyses : List FileAnalysis)
    (target p : Str) (hp : p ∈ getImporters analyses target) :
    pathDir p ≠ pathDir target := by
  simp only [getImporters, List.mem_filterMap] at hp
  obtain ⟨a, -, heq⟩ := hp
  by_cases h1 : pathDir a.path = pathDir target
  · rw [if_pos h1] at heq
    exact Option.noConfusion heq
  · rw [if_neg h1] at heq
    by_cases h2 : (a.imports.any (importMatchesTarget (pathBase target)
        (dropSuf (pathBase target) (pathExt (pathBase target))) target
        (pathDir target))) = true
    · rw [if_pos h2] at heq
      cases heq
      exact h1
    · rw [if_neg h2] at heq
      exact Option.noConfusion heq

/-- Witness: a file in another directory is a reported importer, and the
theorem places it outside the target's directory. -/
theorem getImporters_not_same_dir_witness :
    pathDir ("b/z.go".toList) ≠ pathDir ("a/x.go".toList) :=
  getImporters_not_same_dir
    [{ path := "b/z.go".toList, imports := ["x".toList] }]
    ("a/x.go".toList) ("b/z.go".toList) (by decide)

/-- Counterexample to claim C9 as stated: with `a/x.go` changed and a single
other file `a/y.go` — in the same directory — importing `x`, the impact
query reports `x.go` as used by 1 file; that one importer lives in the
target's own directory. -/
theorem analyzeImpact_same_dir_counterexample :
    analyzeImpact [{ path := "a/x.go".toList }]
        [{ path := "a/y.go".toList, imports := ["x".toList] }] =
      [{ file := "x.go".toList, usedBy := 1 }] ∧
      pathDir ("a/y.go".toList) = pathDir ("a/x.go".toList) := by
  refine ⟨by decide, by decide⟩

/-! ### C10 — the line-buffer scope fallback -/

theorem classContextScope_shape (lines : Str) (s : Str)
    (h : classContextScope lines = some s) : ∃ n, s = ("class:".toList) ++ n := by
  unfold classContextScope at h
  split_ifs at h
  cases hidx : indexOf lines ("class ".toList) with
  | none => rw [hidx] at h; exact Option.noConfusion h
  | some idx =>
    rw [hidx] at h
    rcases Option.map_eq_some'.mp h with ⟨n, -, hn⟩
    exact ⟨n, hn.symm⟩

theorem interfaceContextScope_shape (lines : Str) (s : Str)
    (h : interfaceContextScope lines = some s) :
    ∃ n, s = ("interface:".toList) ++ n := by
  unfold interfaceContextScope at h
  split_ifs at h
  cases hidx : indexOf lines ("interface ".toList) with
  | none => rw [hidx] at h; exact Option.noConfusion h
  | some idx =>
    rw [hidx] at h
    rcases Option.map_eq_some'.mp h with ⟨n, -, hn⟩
    exact ⟨n, hn.symm⟩

theorem extractScopeFromContext_shape (lines lang : Str) :
    extractScopeFromContext lines lang = "global".toList ∨
      (∃ n, extractScopeFromContext lines lang = ("class:".toList) ++ n) ∨
      (∃ n, extractScopeFromContext lines lang = ("interface:".toList) ++ n) := by
  unfold extractScopeFromContext
  by_cases hl : ¬ (lang = "typescript".toList ∨ lang = "javascript".toList)
  · rw [if_pos hl]
    exact Or.inl rfl
  · rw [if_neg hl]
    cases hcs : classContextScope lines with
    | some s =>
      obtain ⟨n, hn⟩ := classContextScope_shape lines s hcs
      exact Or.inr (Or.inl ⟨n, hn⟩)
    | none =>
      cases his : interfaceContextScope lines with
      | some t =>
        obtain ⟨n, hn⟩ := interfaceContextScope_shape lines t his
        exact Or.inr (Or.inr ⟨n, hn⟩)
      | none =>
        exact Or.inl rfl

theorem extractSymbolV2Core_scope (m : ScanMatch) (lang : Str) :
    (extractSymbolV2Core m lang).scope = "global".toList ∨
      (extractSymbolV2Core m lang).scope = extractScopeFromContext m.lines lang := by
  unfold extractSymbolV2Core
  by_cases h1 : hasSuf m.ruleId ("-imports".toList) = true
  · rw [if_pos h1]; exact Or.inl rfl
  rw [if_neg h1]
  by_cases h2 : hasSuf m.ruleId ("-arrow-functions".toList) = true
  · rw [if_pos h2]; exact Or.inl rfl
  rw [if_neg h2]
  by_cases h3 : hasSuf m.ruleId ("-function-signatures".toList) = true
  · rw [if_pos h3]; exact Or.inl rfl
  rw [if_neg h3]
  by_cases h4 : hasSuf m.ruleId ("-generator-functions".toList) = true
  · rw [if_pos h4]; exact Or.inl rfl
  rw [if_neg h4]
  by_cases h5 : hasSuf m.ruleId ("-functions".toList) = true
  · rw [if_pos h5]; exact Or.inl rfl
  rw [if_neg h5]
  by_cases h6 : (hasSuf m.ruleId ("-structs".toList) || hasSuf m.ruleId ("-classes".toList)) = true
  · rw [if_pos h6]; exact Or.inl rfl
  rw [if_neg h6]
  by_cases h7 : hasSuf m.ruleId ("-interfaces".toList) = true
  · rw [if_pos h7]; exact Or.inl rfl
  rw [if_neg h7]
  by_cases h8 : hasSuf m.ruleId ("-methods".toList) = true
  · rw [if_pos h8]; exact Or.inr rfl
  rw [if_neg h8]
  by_cases h9 : hasSuf m.ruleId ("-method-signatures".toList) = true
  · rw [if_pos h9]; exact Or.inr rfl
  rw [if_neg h9]
  by_cases h10 : hasSuf m.ruleId ("-constants".toList) = true
  · rw [if_pos h10]; exact Or.inl rfl
  rw [if_neg h10]
  by_cases h11 : hasSuf m.ruleId ("-types".toList) = true
  · rw [if_pos h11]; exact Or.inl rfl
  rw [if_neg h11]
  by_cases h12 : hasSuf m.ruleId ("-vars".toList) = true
  · rw [if_pos h12]; exact Or.inl rfl
  rw [if_neg h12]
  by_cases h13 : hasSuf m.ruleId ("-enums".toList) = true
  · rw [if_pos h13]; exact Or.inl rfl
  rw [if_neg h13]
  by_cases h14 : hasSuf m.ruleId ("-lexical".toList) = true
  · rw [if_pos h14]
    by_cases hlx : hasPre (trimSpace m.text) ("const ".toList) = true
    · rw [if_pos hlx]
      cases extractConstantNames m.text lang with
      | nil => exact Or.inl rfl
      | cons n rest => exact Or.inl rfl
    · rw [if_neg hlx]
      cases extractVarNames m.text lang with
      | nil => exact Or.inl rfl
      | cons n rest => exact Or.inl rfl
  rw [if_neg h14]
  by_cases h15 : hasSuf m.ruleId ("-namespaces".toList) = true
  · rw [if_pos h15]; exact Or.inl rfl
  rw [if_neg h15]
  by_cases h16 : hasSuf m.ruleId ("-property-signatures".toList) = true
  · rw [if_pos h16]; exact Or.inr rfl
  rw [if_neg h16]
  by_cases h17 : hasSuf m.ruleId ("-field-definitions".toList) = true
  · rw [if_pos h17]; exact Or.inr rfl
  rw [if_neg h17]
  by_cases h18 : hasSuf m.ruleId ("-decorators".toList) = true
  · rw [if_pos h18]; exact Or.inl rfl
  rw [if_neg h18]
  by_cases h19 : hasSuf m.ruleId ("-import-aliases".toList) = true
  · rw [if_pos h19]; exact Or.inl rfl
  rw [if_neg h19]
  by_cases h20 : hasSuf m.ruleId ("-call-signatures".toList) = true
  · rw [if_pos h20]; exact Or.inl rfl
  rw [if_neg h20]
  by_cases h21 : hasSuf m.ruleId ("-construct-signatures".toList) = true
  · rw [if_pos h21]; exact Or.inl rfl
  rw [if_neg h21]
  by_cases h22 : hasSuf m.ruleId ("-index-signatures".toList) = true
  · rw [if_pos h22]; exact Or.inl rfl
  rw [if_neg h22]
  by_cases h23 : hasSuf m.ruleId ("-variable-declarations".toList) = true
  · rw [if_pos h23]; exact Or.inl rfl
  rw [if_neg h23]
  by_cases h24 : hasSuf m.ruleId ("-function-expressions".toList) = true
  · rw [if_pos h24]; exact Or.inl rfl
  rw [if_neg h24]
  by_cases h25 : hasSuf m.ruleId ("-static-blocks".toList) = true
  · rw [if_pos h25]; exact Or.inl rfl
  rw [if_neg h25]
  by_cases h26 : hasSuf m.ruleId ("-ref-function-calls".toList) = true
  · rw [if_pos h26]; exact Or.inl rfl
  rw [if_neg h26]
  by_cases h27 : hasSuf m.ruleId ("-ref-new-expressions".toList) = true
  · rw [if_pos h27]; exact Or.inl rfl
  rw [if_neg h27]
  by_cases h28 : hasSuf m.ruleId ("-ref-type-references".toList) = true
  · rw [if_pos h28]; exact Or.inl rfl
  · rw [if_neg h28]; exact Or.inl rfl

theorem extractSymbolV2_scope (m : ScanMatch) (lang : Str) :
    (extractSymbolV2 m lang).scope = "global".toList ∨
      (extractSymbolV2 m lang).scope = extractScopeFromContext m.lines lang :=
  extractSymbolV2Core_scope m lang

/-- Claim C10 (confirmed): in a scan where the container pass produced no
containers, every symbol of a non-Go file — in particular every method,
method-signature, property-signature and field-definition symbol, whose
scope is the line-buffer fallback — carries a scope that is `global`,
`class:<Name>`, or `interface:<Name>`; the fallback never produces a
`namespace:`, `enum:`, or `struct:` scope. -/
theorem fallback_scope_shape (root : Str) (ms : List ScanMatch)
    (containers : Str → List ScopeContainer) (order : List Str)
    (fa : FileAnalysisV2) (hcont : ∀ p, containers p = [])
    (hfa : fa ∈ scanDirectoryV2 root ms containers order)
    (hlang : fa.language ≠ "go".toList) :
    ∀ s ∈ fa.symbols, s.scope = "global".toList ∨
      (∃ n, s.scope = ("class:".toList) ++ n) ∨
      (∃ n, s.scope = ("interface:".toList) ++ n) := by
  rcases List.mem_map.mp hfa with ⟨p, -, rfl⟩
  have hlang' : fileLang root ms p ≠ "go".toList := hlang
  intro s hs
  have hs' : s ∈ rawSymbolsFor root ms containers p :=
    (dedupeSymbolsAux_sublist _ []).subset hs
  rcases List.mem_filterMap.mp hs' with ⟨m, -, heq⟩
  rw [hcont p] at heq
  split_ifs at heq
  have hres : resolveSymbol [] (fileLang root ms p) m
      (extractSymbolV2 m (fileLang root ms p)) =
        extractSymbolV2 m (fileLang root ms p) := by
    unfold resolveSymbol
    rw [if_neg (not_not_intro rfl)]
    unfold resolveGoMethodScope
    rw [if_neg (fun hc => hlang' hc.1)]
  rw [hres] at heq
  cases heq
  rcases extractSymbolV2_scope m (fileLang root ms p) with hg | hctx
  · exact Or.inl hg
  · rw [hctx]
    exact extractScopeFromContext_shape m.lines (fileLang root ms p)

/-- Witness for the fallback-scope theorem: the concrete TS method symbol
assembled with no containers has scope `class:Foo`, one of the three
allowed shapes. -/
theorem fallback_scope_shape_witness :
    exTsMethodSym.scope = "global".toList ∨
      (∃ n, exTsMethodSym.scope = ("class:".toList) ++ n) ∨
      (∃ n, exTsMethodSym.scope = ("interface:".toList) ++ n) :=
  fallback_scope_shape ("r".toList) [exMatchTsMethod] noContainers
    ["f.ts".toList]
    (analysisFor ("r".toList) [exMatchTsMethod] noContainers ("f.ts".toList))
    (fun _ => rfl) (by decide) (by decide) exTsMethodSym (by decide)

/-! ### C8 — Go receiver scope -/

theorem gFindIdx_all_false {p : Char → Bool} :
    ∀ l : Str, (∀ c ∈ l, p c = false) → gFindIdx p l = none := by
  intro l
  induction l with
  | nil => intro _; rfl
  | cons c r ih =>
    intro h
    simp only [gFindIdx, h c (List.mem_cons_self _ _),
      ih (fun d hd => h d (List.mem_cons_of_mem _ hd))]
    rfl

theorem gFindIdx_append_none {p : Char → Bool} :
    ∀ a b : Str, gFindIdx p a = none →
      gFindIdx p (a ++ b) = (gFindIdx p b).map (· + a.length) := by
  intro a
  induction a with
  | nil =>
    intro b _
    cases hb : gFindIdx p b <;> simp [hb]
  | cons c r ih =>
    intro b h
    have hc : p c = false := by
      cases hpc : p c
      · rfl
      · rw [show gFindIdx p (c :: r) = some 0 by simp [gFindIdx, hpc]] at h
        exact Option.noConfusion h
    have hr : gFindIdx p r = none := by
      have h2 : (gFindIdx p r).map (· + 1) = none := by
        rw [← h]
        simp [gFindIdx, hc]
      cases hgr : gFindIdx p r
      · rfl
      · rw [hgr] at h2
        exact Option.noConfusion h2
    have hstep : gFindIdx p ((c :: r) ++ b) = (gFindIdx p (r ++ b)).map (· + 1) := by
      simp [gFindIdx, hc]
    rw [hstep, ih b hr]
    cases hb : gFindIdx p b
    · simp
    · simp only [Option.map_some', List.length_cons, Option.some.injEq]
      omega

theorem indexOf_singleton (c : Char) :
    ∀ s : Str, indexOf s [c] = gFindIdx (fun d => c == d) s := by
  intro s
  induction s with
  | nil => simp [indexOf, gFindIdx]
  | cons d r ih =>
    simp only [indexOf, gFindIdx]
    have hpre : isPre [c] (d :: r) = (c == d) := by simp [isPre]
    rw [hpre, ih]

theorem isValidIdentifier_cases (typ : Str) (h : isValidIdentifier typ = true) :
    ∃ c rest, typ = c :: rest ∧ validFirstChar c = true ∧
      rest.all validRestChar = true := by
  cases typ with
  | nil => simp [isValidIdentifier] at h
  | cons c rest =>
    refine ⟨c, rest, rfl, ?_, ?_⟩ <;>
      · simp only [isValidIdentifier, if_neg (List.cons_ne_nil c rest), validChars,
          if_pos (by rfl : ((0 : Nat) == 0) = true), validChars_succ,
          Bool.and_eq_true] at h
        first | exact h.1 | exact h.2

theorem identChar_ne {d e : Char}
    (hd : validFirstChar d = true ∨ validRestChar d = true)
    (he : validFirstChar e = false ∧ validRestChar e = false) :
    (e == d) = false := by
  by_cases heq : e = d
  · subst heq
    rcases hd with h1 | h1
    · rw [he.1] at h1; exact Bool.noConfusion h1
    · rw [he.2] at h1; exact Bool.noConfusion h1
  · exact beq_eq_false_iff_ne.mpr heq

theorem identChar_not_space {d : Char}
    (hd : validFirstChar d = true ∨ validRestChar d = true) :
    isSpaceChar d = false := by
  cases hs : isSpaceChar d with
  | false => rfl
  | true =>
    exfalso
    simp only [isSpaceChar, Bool.or_eq_true, beq_iff_eq] at hs
    rcases hs with ((((rfl | rfl) | rfl) | rfl) | rfl) | rfl <;>
      rcases hd with h1 | h1 <;> exact absurd h1 (by decide)

theorem fieldsAux_nonspace :
    ∀ (l : Str) (acc : Str), acc ≠ [] → (∀ c ∈ l, isSpaceChar c = false) →
      fieldsAux acc l = [acc.reverse ++ l] := by
  intro l
  induction l with
  | nil => intro acc hacc _; simp [fieldsAux, hacc]
  | cons d r ih =>
    intro acc hacc h
    have hd : isSpaceChar d = false := h d (List.mem_cons_self _ _)
    simp only [fieldsAux, hd]
    rw [if_neg (by simp), ih (d :: acc) (List.cons_ne_nil d acc)
      (fun c hc => h c (List.mem_cons_of_mem _ hc))]
    simp [List.reverse_cons, List.append_assoc]

theorem trimLeftSpace_eq_self (s : Str)
    (h : ∀ c, s.head? = some c → isSpaceChar c = false) : trimLeftSpace s = s := by
  cases s with
  | nil => rfl
  | cons c l => simp [trimLeftSpace, List.dropWhile_cons, h c rfl]

theorem trimRightSpace_eq_self (s : Str)
    (h : ∀ c, s.getLast? = some c → isSpaceChar c = false) :
    trimRightSpace s = s := by
  unfold trimRightSpace
  cases hs : s.reverse with
  | nil =>
    have hnil : s = [] := by simpa using congrArg List.reverse hs
    subst hnil
    rfl
  | cons c t =>
    have hc : s.getLast? = some c := by
      rw [← List.head?_reverse, hs]
      rfl
    rw [List.dropWhile_cons, if_neg (by simp [h c hc]), ← hs,
      List.reverse_reverse]

theorem trimSpace_eq_self (s : Str)
    (h1 : ∀ c, s.head? = some c → isSpaceChar c = false)
    (h2 : ∀ c, s.getLast? = some c → isSpaceChar c = false) : trimSpace s = s := by
  unfold trimSpace
  rw [trimLeftSpace_eq_self s h1, trimRightSpace_eq_self s h2]

/-- Claim C8 (corrected, amended): for a Go method text whose receiver
parenthetical holds at least two whitespace-separated tokens — a receiver
variable and a type — the extracted receiver is the last token with an
optional leading `*` stripped, and the assembler sets the symbol scope to
`struct:<that token>`; a standalone function (no receiver parenthetical)
yields no receiver, keeping scope `global`.  A parenthetical with fewer
than two tokens, such as the anonymous receiver of the counterexample, is
rejected and the scope is left unchanged. -/
theorem goReceiverScope_two_token_rule (typ : Str)
    (h : isValidIdentifier typ = true) :
    extractGoReceiverType (goMethodTextPtr typ) = typ ∧
      extractGoReceiverType ("func (m MyStruct) Method2() \x7b\x7d".toList) =
        "MyStruct".toList ∧
      extractGoReceiverType ("func standalone() \x7b\x7d".toList) = [] ∧
      ∀ sym : Symbol,
        (resolveSymbol [] ("go".toList) (goMethodMatchPtr typ) sym).scope =
          ("struct:".toList) ++ typ := by
  obtain ⟨c0, rest, htyp, hfirst, hrest⟩ := isValidIdentifier_cases typ h
  have hchars : ∀ d ∈ typ, validFirstChar d = true ∨ validRestChar d = true := by
    intro d hd
    rw [htyp] at hd
    rcases List.mem_cons.mp hd with rfl | hd'
    · exact Or.inl hfirst
    · exact Or.inr (List.all_eq_true.mp hrest d hd')
  have hnosp : ∀ d ∈ typ, isSpaceChar d = false :=
    fun d hd => identChar_not_space (hchars d hd)
  have hmain : extractGoReceiverType (goMethodTextPtr typ) = typ := by
    have htrim : trimSpace (goMethodTextPtr typ) = goMethodTextPtr typ := by
      apply trimSpace_eq_self
      · intro c hc
        have hh : (goMethodTextPtr typ).head? = some 'f' := rfl
        rw [hh] at hc
        injection hc with hc
        rw [← hc]
        decide
      · intro c hc
        have hh : (goMethodTextPtr typ).getLast? = some rbrace := by
          unfold goMethodTextPtr
          rw [List.getLast?_append_of_ne_nil ("func (m *".toList ++ typ)
            (show (") Method1() \x7b\x7d".toList) ≠ [] by decide)]
          decide
        rw [hh] at hc
        injection hc with hc
        rw [← hc]
        decide
    unfold extractGoReceiverType
    rw [htrim]
    rw [if_neg (not_not_intro
      (show hasPre (goMethodTextPtr typ) ("func ".toList) = true from rfl))]
    have hdropf : dropPre (goMethodTextPtr typ) ("func ".toList) =
        ("(m *".toList) ++ (typ ++ (") Method1() \x7b\x7d".toList)) := rfl
    rw [hdropf]
    unfold goReceiverFromFunc
    rw [if_neg (not_not_intro (show hasPre (("(m *".toList) ++
      (typ ++ (") Method1() \x7b\x7d".toList))) ("(".toList) = true from rfl))]
    have hidx : indexOf (("(m *".toList) ++
        (typ ++ (") Method1() \x7b\x7d".toList))) (")".toList) =
          some (typ.length + 4) := by
      show indexOf (("(m *".toList) ++
        (typ ++ (") Method1() \x7b\x7d".toList))) [')'] = some (typ.length + 4)
      rw [indexOf_singleton ')']
      rw [gFindIdx_append_none ("(m *".toList) (typ ++ (") Method1() \x7b\x7d".toList))
        (by decide)]
      rw [gFindIdx_append_none typ (") Method1() \x7b\x7d".toList)
        (gFindIdx_all_false typ (fun d hd => identChar_ne (hchars d hd) (by decide)))]
      rw [show gFindIdx (fun d => (')' == d)) (") Method1() \x7b\x7d".toList) =
        some 0 from rfl]
      simp only [Option.map_some', Option.some.injEq]
      rw [show ("(m *".toList).length = 4 from rfl]
      omega
    rw [hidx]
    show goReceiverFromParts (fields ((((("(m *".toList) ++
      (typ ++ (") Method1() \x7b\x7d".toList))).take (typ.length + 4))).drop 1)) = typ
    have htake : ((("(m *".toList) ++
        (typ ++ (") Method1() \x7b\x7d".toList))).take (typ.length + 4)) =
          ("(m *".toList) ++ typ := by
      rw [← List.append_assoc]
      have hlen : (("(m *".toList) ++ typ).length = typ.length + 4 := by
        rw [List.length_append, show ("(m *".toList).length = 4 from rfl]
        omega
      rw [← hlen, List.take_left]
    rw [htake]
    have hdrop1 : ((("(m *".toList) ++ typ).drop 1) = ("m *".toList) ++ typ := rfl
    rw [hdrop1]
    have hfields : fields (("m *".toList) ++ typ) = [("m".toList), '*' :: typ] := by
      show ("m".toList) :: fieldsAux ['*'] typ = [("m".toList), '*' :: typ]
      rw [fieldsAux_nonspace typ ['*'] (by simp) hnosp]
      rfl
    rw [hfields]
    unfold goReceiverFromParts
    rw [if_neg (by simp : ¬([("m".toList), '*' :: typ].length < 2))]
    have hlast : ([("m".toList), '*' :: typ].getLastD []) = '*' :: typ := rfl
    rw [hlast]
    have hstar : dropPre ('*' :: typ) ("*".toList) = typ := rfl
    rw [hstar, if_pos h]
  refine ⟨hmain, by decide, by decide, ?_⟩
  intro sym
  unfold resolveSymbol
  rw [if_neg (not_not_intro rfl)]
  unfold resolveGoMethodScope
  rw [if_pos ⟨rfl, (rfl : hasSuf (goMethodMatchPtr typ).ruleId ("-methods".toList) = true)⟩]
  have hrecv : extractGoReceiverType (goMethodMatchPtr typ).text = typ := hmain
  rw [hrecv]
  rw [if_pos (by rw [htyp]; exact List.cons_ne_nil c0 rest)]

/-- Witness for the receiver-scope theorem at the type `MyStruct`. -/
theorem goReceiverScope_two_token_rule_witness :
    extractGoReceiverType (goMethodTextPtr ("MyStruct".toList)) =
        "MyStruct".toList ∧
      extractGoReceiverType ("func (m MyStruct) Method2() \x7b\x7d".toList) =
        "MyStruct".toList ∧
      extractGoReceiverType ("func standalone() \x7b\x7d".toList) = [] ∧
      ∀ sym : Symbol,
        (resolveSymbol [] ("go".toList) (goMethodMatchPtr ("MyStruct".toList))
            sym).scope = ("struct:".toList) ++ ("MyStruct".toList) :=
  goReceiverScope_two_token_rule ("MyStruct".toList) (by decide)

/-- Counterexample to claim C8 as stated: the legal Go method
`func (*MyStruct) Method1() {}` begins with a receiver parenthetical whose
last whitespace-separated token, stripped of `*`, is `MyStruct` — yet the
extractor returns no receiver (it requires two tokens) and the scan leaves
the symbol's scope `global` instead of `struct:MyStruct`. -/
theorem go_anonymous_receiver_counterexample :
    extractGoReceiverType ("func (*MyStruct) Method1() \x7b\x7d".toList) = [] ∧
      ((scanDirectoryV2 ("r".toList) [exMatchGoPtrMethod] noContainers
          ["a.go".toList]).map
        (fun fa => fa.symbols.map (fun s => (s.name, s.scope)))) =
          [[("Method1".toList, "global".toList)]] ∧
      ("global".toList : Str) ≠ ("struct:MyStruct".toList) := by
  refine ⟨by decide, by decide, by decide⟩

end Codemap
